import Mathlib

/-!
# leap: a monitor for IERS Bulletin C

A shallow embedding of `leap.go`.  The program is a chain of blocking calls
into the Go runtime (HTTP, the file system, the logger).  Every function of
the source is embedded as a Lean function that threads an explicit `World`
(the file system plus the chronological trace of the calls made so far) and
reads the answers of the outside world from an `Env`.

Go's `string` and `[]byte` are both sequences of bytes, and the program
converts freely between them, so both are `List UInt8` here.  An `error` is
modelled by its message.
-/

namespace Leap

/-! ## Strings, bytes and errors -/

/-- A Go `string`: an immutable sequence of bytes. -/
abbrev GoString := List UInt8

/-- The bytes of a source-code string literal (Go source is UTF-8). -/
def utf8 (s : String) : GoString := s.toList.flatMap String.utf8EncodeChar

/-- A non-nil Go `error`, represented by the text of `err.Error()`. -/
abbrev GoError := GoString

/-! ## Constants and the configuration record (leap.go, lines 16-26) -/

def bulletinURL : GoString := utf8 "https://datacenter.iers.org/data/latestVersion/bulletinC.txt"

def apiURL : GoString := utf8 "https://leap.webclock.io/leap.json"

def gitHubSourceURL : GoString := utf8 "https://github.com/nixigaj/leap/blob/pages/leap.json"

structure config where
  GotifyURL : GoString
  GotifyToken : GoString
  FilePath : GoString
deriving DecidableEq, Repr

/-! ## The outside world -/

/-- The body of an HTTP response: what `io.ReadAll` returns on it and the
error, if any, of `Close`. -/
structure Body where
  readAll : Except GoError (List UInt8)
  close : Option GoError

/-- The outcome of `http.Get`. -/
inductive GetResult where
  | failed (err : GoError)
  | response (StatusCode : Int) (body : Body)

/-- The form handed to `http.PostForm`: the entries of the map literal. -/
abbrev Form := List (GoString × List GoString)

/-- The outcome of `http.PostForm`; `close` is the error, if any, of closing
the response body. -/
inductive PostResult where
  | failed (err : GoError)
  | response (StatusCode : Int) (close : Option GoError)

/-- The outcome of `os.WriteFile` (open with create and truncate, write,
close): it succeeds, or the file cannot be opened and is left as it was, or
the write fails after the file was truncated and `written` bytes went out. -/
inductive WriteResult where
  | ok
  | openFailed (err : GoError)
  | writeFailed (err : GoError) (written : Nat)

/-- The outcome of `flag.Parse` for the single flag `-config`: the command
line is rejected (or asks for help) and the process exits with `code`, or the
flag is absent, or it is given a value. -/
inductive FlagResult where
  | exit (code : Nat)
  | absent
  | given (value : GoString)

/-- The answers of the outside world during one stretch of execution (the
startup, or one tick of the polling loop).  Within one stretch the program
makes every call at most once with given arguments, so an answer is a function
of the arguments; later stretches come with an `Env` of their own. -/
structure Env where
  httpGet : GoString → GetResult
  httpPostForm : GoString → Form → PostResult
  statFault : GoString → Option GoError
  readFault : GoString → Option GoError
  writeFile : GoString → List UInt8 → WriteResult
  flags : FlagResult
  unmarshal : List UInt8 → Except GoError config

/-- One call into the runtime that the outside can observe. -/
inductive Event where
  | httpGet (url : GoString)
  | readAll (url : GoString)
  | bodyClose (url : GoString)
  | httpPostForm (url : GoString) (data : Form)
  | stat (name : GoString)
  | readFile (name : GoString)
  | writeFile (name : GoString) (data : List UInt8)
  | logPrint (line : GoString)
  | exit (code : Nat)
deriving DecidableEq, Repr

/-- The state the program acts on: the content of every file (`none` when the
file does not exist) and the calls made so far, oldest first. -/
structure World where
  files : GoString → Option (List UInt8)
  trace : List Event

/-- Record one call at the end of the trace. -/
def World.emit (w : World) (e : Event) : World :=
  { w with trace := w.trace ++ [e] }

/-- Replace the content of one file. -/
def World.store (w : World) (name : GoString) (data : List UInt8) : World :=
  { w with files := fun n => if n = name then some data else w.files n }

/-- `os.ReadFile`. -/
def osReadFile (env : Env) (name : GoString) (w : World) :
    Except GoError (List UInt8) × World :=
  let w1 := w.emit (.readFile name)
  match env.readFault name with
  | some err => (.error err, w1)
  | none =>
    match w.files name with
    | none => (.error (utf8 "open " ++ name ++ utf8 ": no such file or directory"), w1)
    | some data => (.ok data, w1)

/-- `os.WriteFile`; `none` is the nil error. -/
def osWriteFile (env : Env) (name : GoString) (data : List UInt8) (w : World) :
    Option GoError × World :=
  let w1 := w.emit (.writeFile name data)
  match env.writeFile name data with
  | .ok => (none, w1.store name data)
  | .openFailed err => (some err, w1)
  | .writeFailed err written => (some err, w1.store name (data.take written))

/-- The three ways `os.Stat` followed by `os.IsNotExist` can go. -/
inductive StatResult where
  | found
  | notExist
  | failed (err : GoError)

/-- `os.Stat`, with the result classified as `initialCheck` classifies it. -/
def osStat (env : Env) (name : GoString) (w : World) : StatResult × World :=
  let w1 := w.emit (.stat name)
  match env.statFault name with
  | some err => (.failed err, w1)
  | none =>
    match w.files name with
    | none => (.notExist, w1)
    | some _ => (.found, w1)

/-- `log.Printf`. -/
def logPrintf (line : GoString) (w : World) : World :=
  w.emit (.logPrint line)

/-- `log.Fatal` / `log.Fatalf`: print the line, then `os.Exit(1)`. -/
def logFatal (line : GoString) (w : World) : World :=
  (w.emit (.logPrint line)).emit (.exit 1)

/-- `flag.StringVar` followed by `flag.Parse`: the value of the variable, or
the status the process exits with. -/
def flagParse (env : Env) (value : GoString) : Except Nat GoString :=
  match env.flags with
  | .exit code => .error code
  | .absent => .ok value
  | .given v => .ok v

/-- The calls made between two worlds of one execution. -/
def World.since (w' w : World) : List Event :=
  w'.trace.drop w.trace.length

/-- The call is a write to a file. -/
def Event.isWrite : Event → Bool
  | .writeFile _ _ => true
  | _ => false

/-- The call sends a notification (a form POST). -/
def Event.isNotification : Event → Bool
  | .httpPostForm _ _ => true
  | _ => false

/-- The call issues an HTTP GET. -/
def Event.isFetch : Event → Bool
  | .httpGet _ => true
  | _ => false

/-! ## The HTTP fetcher (leap.go, lines 94-114) -/

def fetchURL (env : Env) (url : GoString) (w : World) :
    Except GoError (List UInt8) × World :=
  let w1 := w.emit (.httpGet url)
  match env.httpGet url with
  | .failed err => (.error (utf8 "error fetching: " ++ err), w1)
  | .response StatusCode body =>
    if StatusCode ≠ 200 then
      (.error (utf8 "unexpected status code: " ++ utf8 (toString StatusCode)), w1)
    else
      let w2 := w1.emit (.readAll url)
      match body.readAll with
      | .error err => (.error (utf8 "failed to read data: " ++ err), w2)
      | .ok data =>
        let w3 := w2.emit (.bodyClose url)
        match body.close with
        | some err => (.error (utf8 "failed to close response body: " ++ err), w3)
        | none => (.ok data, w3)

/-! ## Go standard library: `unicode/utf8`, `unicode.IsSpace`, `strings.TrimSpace`

`generateNotificationMessage` calls `strings.TrimSpace`; its definition and
the definitions it rests on follow the Go sources.  A rune is a `Nat`. -/

def RuneError : Nat := 0xFFFD

/-- `utf8.RuneSelf`: bytes below it are single-byte runes. -/
def RuneSelf : Nat := 0x80

/-- `unicode.IsSpace`: the Latin-1 switch, then the `White_Space` table. -/
def IsSpace (r : Nat) : Bool :=
  if r ≤ 0xFF then
    decide (r = 0x09 ∨ r = 0x0A ∨ r = 0x0B ∨ r = 0x0C ∨ r = 0x0D ∨ r = 0x20 ∨
      r = 0x85 ∨ r = 0xA0)
  else
    decide (r = 0x1680 ∨ (0x2000 ≤ r ∧ r ≤ 0x200A) ∨ r = 0x2028 ∨ r = 0x2029 ∨
      r = 0x202F ∨ r = 0x205F ∨ r = 0x3000)

/-- The table `first` of `unicode/utf8`: information about the first byte of
an encoding (`0xF0` ASCII, `0xF1` invalid, else accept-range index in the high
nibble and size in the low one). -/
def first (b : UInt8) : Nat :=
  let n := b.toNat
  if n < 0x80 then 0xF0
  else if n < 0xC2 then 0xF1
  else if n < 0xE0 then 0x02
  else if n = 0xE0 then 0x13
  else if n < 0xED then 0x03
  else if n = 0xED then 0x23
  else if n < 0xF0 then 0x03
  else if n = 0xF0 then 0x34
  else if n < 0xF4 then 0x04
  else if n = 0xF4 then 0x44
  else 0xF1

/-- The table `acceptRanges` of `unicode/utf8`: the range of valid values for
the second byte of an encoding. -/
def acceptRanges (i : Nat) : Nat × Nat :=
  if i = 1 then (0xA0, 0xBF)
  else if i = 2 then (0x80, 0x9F)
  else if i = 3 then (0x90, 0xBF)
  else if i = 4 then (0x80, 0x8F)
  else (0x80, 0xBF)

/-- `utf8.DecodeRuneInString`: the first rune of `s` and its width in bytes;
`(RuneError, 0)` for the empty string and `(RuneError, 1)` for an invalid
encoding. -/
def DecodeRuneInString (s : GoString) : Nat × Nat :=
  let n := s.length
  if n < 1 then (RuneError, 0) else
  let s0 := (s.getD 0 0).toNat
  let x := first (s.getD 0 0)
  if x ≥ 0xF0 then
    -- the mask built from the low bit of `x`: ASCII keeps the byte, an
    -- invalid first byte gives RuneError
    (if x % 2 = 0 then s0 else RuneError, 1)
  else
  let sz := x &&& 7
  let accept := acceptRanges (x >>> 4)
  if n < sz then (RuneError, 1) else
  let s1 := (s.getD 1 0).toNat
  if s1 < accept.1 ∨ accept.2 < s1 then (RuneError, 1) else
  if sz ≤ 2 then ((s0 &&& 0x1F) <<< 6 ||| (s1 &&& 0x3F), 2) else
  let s2 := (s.getD 2 0).toNat
  if s2 < 0x80 ∨ 0xBF < s2 then (RuneError, 1) else
  if sz ≤ 3 then ((s0 &&& 0x0F) <<< 12 ||| (s1 &&& 0x3F) <<< 6 ||| (s2 &&& 0x3F), 3) else
  let s3 := (s.getD 3 0).toNat
  if s3 < 0x80 ∨ 0xBF < s3 then (RuneError, 1) else
  ((s0 &&& 0x07) <<< 18 ||| (s1 &&& 0x3F) <<< 12 ||| (s2 &&& 0x3F) <<< 6 ||| (s3 &&& 0x3F), 4)

/-- `utf8.RuneStart`: the byte is not a continuation byte. -/
def RuneStart (b : UInt8) : Bool :=
  b.toNat &&& 0xC0 != 0x80

/-- The loop `for start--; start >= lim; start-- { if RuneStart(s[start]) { break } }`
of `DecodeLastRuneInString`, with `k = start - lim + 1` positions left to
look at; the value of `start` when the loop is left. -/
def DecodeLastRuneInString.backUp (s : GoString) (lim : Nat) : Nat → Int
  | 0 => (lim : Int) - 1
  | k + 1 =>
    if RuneStart (s.getD (lim + k) 0) then ((lim + k : Nat) : Int)
    else DecodeLastRuneInString.backUp s lim k

/-- `utf8.DecodeLastRuneInString`: the last rune of `s` and its width. -/
def DecodeLastRuneInString (s : GoString) : Nat × Nat :=
  let stop := s.length
  if stop = 0 then (RuneError, 0) else
  let start := stop - 1
  let r := (s.getD start 0).toNat
  if r < RuneSelf then (r, 1) else
  -- lim := end - UTFMax, and 0 when that is negative
  let lim := stop - 4
  let start : Int := DecodeLastRuneInString.backUp s lim (start - lim)
  let start : Nat := if start < 0 then 0 else start.toNat
  let (r, size) := DecodeRuneInString ((s.take stop).drop start)
  if start + size ≠ stop then (RuneError, 1) else (r, size)

/-- The loop `for i, r := range s { if f(r) == truth { return i } }` of
`strings.indexFunc`, from byte offset `i`; a `range` over a string decodes
as `DecodeRuneInString` does.  Every turn moves `i` forward, so `fuel` equal
to the length of `s` is never used up. -/
def indexFunc.loop (s : GoString) (f : Nat → Bool) (truth : Bool) : Nat → Nat → Int
  | 0, _ => -1
  | fuel + 1, i =>
    if i < s.length then
      let (r, size) := DecodeRuneInString (s.drop i)
      if f r == truth then (i : Int)
      else indexFunc.loop s f truth fuel (i + size)
    else -1

/-- `strings.indexFunc`. -/
def indexFunc (s : GoString) (f : Nat → Bool) (truth : Bool) : Int :=
  indexFunc.loop s f truth s.length 0

/-- The loop `for i := len(s); i > 0; { ... }` of `strings.lastIndexFunc`. -/
def lastIndexFunc.loop (s : GoString) (f : Nat → Bool) (truth : Bool) : Nat → Nat → Int
  | 0, _ => -1
  | fuel + 1, i =>
    if i > 0 then
      let (r, size) := DecodeLastRuneInString (s.take i)
      let i := i - size
      if f r == truth then (i : Int)
      else lastIndexFunc.loop s f truth fuel i
    else -1

/-- `strings.lastIndexFunc`. -/
def lastIndexFunc (s : GoString) (f : Nat → Bool) (truth : Bool) : Int :=
  lastIndexFunc.loop s f truth s.length s.length

/-- `strings.TrimLeftFunc`. -/
def TrimLeftFunc (s : GoString) (f : Nat → Bool) : GoString :=
  let i := indexFunc s f false
  if i = -1 then [] else s.drop i.toNat

/-- `strings.TrimRightFunc`. -/
def TrimRightFunc (s : GoString) (f : Nat → Bool) : GoString :=
  let i := lastIndexFunc s f false
  let i :=
    if i ≥ 0 ∧ (s.getD i.toNat 0).toNat ≥ RuneSelf then
      i + ((DecodeRuneInString (s.drop i.toNat)).2 : Int)
    else i + 1
  s.take i.toNat

/-- `strings.TrimFunc`. -/
def TrimFunc (s : GoString) (f : Nat → Bool) : GoString :=
  TrimRightFunc (TrimLeftFunc s f) f

/-- The table `asciiSpace` of `strings`. -/
def asciiSpace (c : UInt8) : Bool :=
  decide (c.toNat = 0x09 ∨ c.toNat = 0x0A ∨ c.toNat = 0x0B ∨ c.toNat = 0x0C ∨
    c.toNat = 0x0D ∨ c.toNat = 0x20)

/-- The second loop of `strings.TrimSpace`, `for ; stop > start; stop--`, on
`t = s[start:]` with `n = stop - start`. -/
def TrimSpace.stopLoop (t : GoString) : Nat → GoString
  | 0 => t.take 0
  | n + 1 =>
    let c := t.getD n 0
    if c.toNat ≥ RuneSelf then TrimRightFunc (t.take (n + 1)) IsSpace
    else if asciiSpace c then TrimSpace.stopLoop t n
    else t.take (n + 1)

/-- `strings.TrimSpace`; the recursion is the first loop,
`for ; start < len(s); start++`, on `s[start:]`. -/
def TrimSpace : GoString → GoString
  | [] => TrimSpace.stopLoop [] 0
  | c :: cs =>
    if c.toNat ≥ RuneSelf then TrimFunc (c :: cs) IsSpace
    else if asciiSpace c then TrimSpace cs
    else TrimSpace.stopLoop (c :: cs) (cs.length + 1)

/-! ## The notifier (leap.go, lines 147-183) -/

def generateNotificationMessage (env : Env) (newContent : List UInt8) (w : World) :
    Except GoError GoString × World :=
  match fetchURL env apiURL w with
  | (.error err, w1) => (.error (utf8 "error fetching API: " ++ err), w1)
  | (.ok apiJSON, w1) =>
    let message := utf8 "============\nNew content:\n============\n"
    let message := message ++ (TrimSpace newContent ++ utf8 "\n")
    let message := message ++ utf8 "\n============\nAPI content:\n============\n"
    let message := message ++ (apiJSON ++ utf8 "\n")
    let message := message ++ (utf8 "\nGitHub source URL: " ++ gitHubSourceURL)
    (.ok message, w1)

def sendNotification (env : Env) (cfg : config) (message : GoString) (w : World) :
    Option GoError × World :=
  let url := cfg.GotifyURL ++ utf8 "/message?token=" ++ cfg.GotifyToken
  let data : Form :=
    [(utf8 "title", [utf8 "IERS Bulletin C Update"]),
     (utf8 "message", [message]),
     (utf8 "priority", [utf8 "5"])]
  let w1 := w.emit (.httpPostForm url data)
  match env.httpPostForm url data with
  | .failed err => (some err, w1)
  | .response StatusCode close =>
    if StatusCode ≠ 200 then
      (some (utf8 "unexpected status code from Gotify: " ++ utf8 (toString StatusCode)), w1)
    else
      let w2 := w1.emit (.bodyClose url)
      match close with
      | some err => (some (utf8 "failed to close response body: " ++ err), w2)
      | none => (none, w2)

/-! ## The update checker and the bootstrap (leap.go, lines 75-92 and 116-145) -/

def checkForUpdates (env : Env) (cfg : config) (w : World) : Option GoError × World :=
  match fetchURL env bulletinURL w with
  | (.error err, w1) => (some (utf8 "error fetching bulletin: " ++ err), w1)
  | (.ok newContent, w1) =>
    match osReadFile env cfg.FilePath w1 with
    | (.error err, w2) => (some (utf8 "error reading existing file: " ++ err), w2)
    | (.ok existingContent, w2) =>
      if ¬ existingContent = newContent then
        match generateNotificationMessage env newContent w2 with
        | (.error err, w3) =>
          (some (utf8 "error generating notification message: " ++ err), w3)
        | (.ok message, w3) =>
          match sendNotification env cfg message w3 with
          | (some err, w4) => (some (utf8 "error sending notification: " ++ err), w4)
          | (none, w4) =>
            match osWriteFile env cfg.FilePath newContent w4 with
            | (some err, w5) => (some (utf8 "error updating file: " ++ err), w5)
            | (none, w5) =>
              (none, logPrintf (utf8 "Bulletin updated and notification sent") w5)
      else (none, w2)

def fetchAndSave (env : Env) (filePath : GoString) (w : World) : Option GoError × World :=
  match fetchURL env bulletinURL w with
  | (.error err, w1) => (some (utf8 "error fetching bulletin: " ++ err), w1)
  | (.ok content, w1) => osWriteFile env filePath content w1

def initialCheck (env : Env) (cfg : config) (w : World) : Option GoError × World :=
  match osStat env cfg.FilePath w with
  | (.notExist, w1) => fetchAndSave env cfg.FilePath w1
  | (.failed err, w1) => (some (utf8 "error checking file: " ++ err), w1)
  | (.found, w1) => checkForUpdates env cfg w1

/-! ## The configuration loader (leap.go, lines 49-73) -/

/-- The configuration, or the status the process exited with. -/
def getConfig (env : Env) (w : World) : Except Nat config × World :=
  match flagParse env (utf8 "config.json") with
  | .error code => (.error code, w.emit (.exit code))
  | .ok configPath =>
    match osReadFile env configPath w with
    | (.error err, w1) => (.error 1, logFatal (utf8 "Error reading config file: " ++ err) w1)
    | (.ok configFile, w1) =>
      match env.unmarshal configFile with
      | .error err => (.error 1, logFatal (utf8 "Error parsing config file: " ++ err) w1)
      | .ok cfg =>
        if cfg.GotifyURL = [] ∨ cfg.GotifyToken = [] then
          (.error 1, logFatal (utf8 "Gotify URL and token are required in config file") w1)
        else
          let cfg :=
            if cfg.FilePath = [] then { cfg with FilePath := utf8 "bulletinC.txt" } else cfg
          (.ok cfg, w1)

/-! ## The scheduler (leap.go, lines 28-47) -/

/-- What the process is doing when the ticks given to it are used up. -/
inductive Proc where
  | exited (code : Nat)
  | polling
deriving DecidableEq, Repr

/-- The loop `for { select { case <-ticker.C: ... } }` of `main`, for as many
ticks as `ticks` has entries; each tick comes with the answers the outside
world gives during it.  The loop has no way out, so what is returned is the
world in which it waits for the next tick. -/
def pollingLoop (cfg : config) : List Env → World → World
  | [], w => w
  | env :: ticks, w =>
    match checkForUpdates env cfg w with
    | (some err, w1) =>
      pollingLoop cfg ticks (logPrintf (utf8 "Error checking for updates: " ++ err) w1)
    | (none, w1) => pollingLoop cfg ticks w1

/-- The function `main`: `env` answers during startup, `ticks` during the
ticks of the timer that follow. -/
def main (env : Env) (ticks : List Env) (w : World) : Proc × World :=
  match getConfig env w with
  | (.error code, w1) => (.exited code, w1)
  | (.ok cfg, w1) =>
    match initialCheck env cfg w1 with
    | (some err, w2) => (.exited 1, logFatal err w2)
    | (none, w2) =>
      (.polling, pollingLoop cfg ticks (logPrintf (utf8 "Starting monitoring of " ++ bulletinURL) w2))

/-! ## The wording of the specification, to compare the code with -/

/-- The message as the specification spells it: one literal, the trimmed new
content, one literal, the API payload, one literal. -/
def specMessage (C P : GoString) : GoString :=
  utf8 "============\nNew content:\n============\n" ++ TrimSpace C ++
    utf8 "\n\n============\nAPI content:\n============\n" ++ P ++
    utf8 "\n\nGitHub source URL: https://github.com/nixigaj/leap/blob/pages/leap.json"

/-- White space as the specification of `trim` means it ("as defined by
Unicode", in the words of the Go documentation): the string is a
concatenation of complete UTF-8 encodings of runes that `unicode.IsSpace`
accepts. -/
inductive SpaceRunes : GoString → Prop where
  | nil : SpaceRunes []
  | cons (t s : GoString) :
      (DecodeRuneInString t).2 = t.length → IsSpace (DecodeRuneInString t).1 = true →
      SpaceRunes s → SpaceRunes (t ++ s)

/-- The gateway URL as the specification spells it. -/
def specEndpoint (cfg : config) : GoString :=
  cfg.GotifyURL ++ utf8 "/message?token=" ++ cfg.GotifyToken

/-- The three form fields as the specification lists them. -/
def specForm (message : GoString) : Form :=
  [(utf8 "title", [utf8 "IERS Bulletin C Update"]),
   (utf8 "message", [message]),
   (utf8 "priority", [utf8 "5"])]

/-! ## Concrete worlds -/

/-- A world with no file and no call made. -/
def emptyWorld : World := ⟨fun _ => none, []⟩

/-- The configuration of the end-to-end scenarios of the specification. -/
def scenarioConfig : config := ⟨utf8 "http://x", utf8 "t", utf8 "b.txt"⟩

/-- The configuration file of the end-to-end scenarios. -/
def scenarioJSON : List UInt8 :=
  utf8 "\x7b\"gotify_url\":\"http://x\",\"gotify_token\":\"t\",\"file_path\":\"b.txt\"\x7d"

/-- A configuration file without `file_path`. -/
def noPathJSON : List UInt8 :=
  utf8 "\x7b\"gotify_url\":\"http://x\",\"gotify_token\":\"t\"\x7d"

/-- A configuration file without `gotify_url`. -/
def noURLJSON : List UInt8 :=
  utf8 "\x7b\"gotify_token\":\"t\",\"file_path\":\"b.txt\"\x7d"

/-- What `json.Unmarshal` into a zero `config` gives on the three files above
(a missing key leaves its field empty); every other text is rejected here. -/
def unmarshalScenario (raw : List UInt8) : Except GoError config :=
  if raw = scenarioJSON then .ok scenarioConfig
  else if raw = noPathJSON then .ok ⟨utf8 "http://x", utf8 "t", []⟩
  else if raw = noURLJSON then .ok ⟨[], utf8 "t", utf8 "b.txt"⟩
  else .error (utf8 "unexpected end of JSON input")

/-- An outside world in which every request fails and no file can be
written. -/
def deadEnv : Env where
  httpGet := fun _ => .failed (utf8 "connection refused")
  httpPostForm := fun _ _ => .failed (utf8 "connection refused")
  statFault := fun _ => none
  readFault := fun _ => none
  writeFile := fun _ _ => .openFailed (utf8 "permission denied")
  flags := .absent
  unmarshal := unmarshalScenario

/-- An outside world that answers every GET of `url` with status 200 and
`body`, and refuses everything else. -/
def serving (url : GoString) (body : List UInt8) : Env :=
  { deadEnv with
    httpGet := fun u =>
      if u = url then .response 200 ⟨.ok body, none⟩ else .failed (utf8 "connection refused") }

/-- An outside world in which the bulletin URL serves `bulletin`, the API URL
serves `api`, the gateway answers every POST with status `gateway`, the file
system has no fault. -/
def scenarioEnv (bulletin api : List UInt8) (gateway : Int) : Env where
  httpGet := fun u =>
    if u = bulletinURL then .response 200 ⟨.ok bulletin, none⟩
    else if u = apiURL then .response 200 ⟨.ok api, none⟩
    else .failed (utf8 "no such host")
  httpPostForm := fun _ _ => .response gateway none
  statFault := fun _ => none
  readFault := fun _ => none
  writeFile := fun _ _ => .ok
  flags := .absent
  unmarshal := unmarshalScenario

/-- The API payload of the end-to-end scenario, the JSON object with the one
member `"status":"ok"`. -/
def statusOk : List UInt8 := utf8 "\x7b\"status\":\"ok\"\x7d"

/-- A world whose only file is the state file `b.txt`, holding `stored`. -/
def snapshotWorld (stored : List UInt8) : World :=
  emptyWorld.store (utf8 "b.txt") stored

/-- A world whose only file is `config.json`, holding `raw`. -/
def configWorld (raw : List UInt8) : World := emptyWorld.store (utf8 "config.json") raw

/-! ## Basic facts about the runtime calls -/

theorem bulletinURL_ne_apiURL : bulletinURL ≠ apiURL := by decide

@[simp] theorem emit_files (w : World) (e : Event) : (w.emit e).files = w.files := rfl

@[simp] theorem emit_trace (w : World) (e : Event) : (w.emit e).trace = w.trace ++ [e] := rfl

@[simp] theorem store_trace (w : World) (n : GoString) (d : List UInt8) :
    (w.store n d).trace = w.trace := rfl

@[simp] theorem store_files_same (w : World) (n : GoString) (d : List UInt8) :
    (w.store n d).files n = some d := by simp [World.store]

theorem store_files_other (w : World) (n m : GoString) (d : List UInt8) (h : m ≠ n) :
    (w.store n d).files m = w.files m := by simp [World.store, h]

theorem since_append (w w' : World) (evs : List Event)
    (h : w'.trace = w.trace ++ evs) : w'.since w = evs := by
  simp [World.since, h]

/-- A fetch succeeds exactly on a 200 response whose body reads and closes. -/
theorem fetchURL_ok_iff (env : Env) (url : GoString) (w : World) (data : List UInt8) :
    (fetchURL env url w).1 = .ok data ↔
      ∃ body, env.httpGet url = .response 200 body ∧ body.readAll = .ok data ∧
        body.close = none := by
  unfold fetchURL
  cases hg : env.httpGet url with
  | failed err => simp
  | response code body =>
    obtain ⟨ra, cl⟩ := body
    by_cases hc : code = 200
    · subst hc
      cases ra with
      | error e => simp
      | ok d =>
        cases cl with
        | some e => simp
        | none => simp
    · simp [hc]

/-- The result of a fetch, and the calls it makes, in each of its five
outcomes. -/
theorem fetchURL_cases (env : Env) (url : GoString) (w : World) :
    (fetchURL env url w).2.files = w.files ∧
    ((∃ err, env.httpGet url = .failed err ∧
        fetchURL env url w = (.error (utf8 "error fetching: " ++ err), w.emit (.httpGet url))) ∨
     (∃ code body, env.httpGet url = .response code body ∧ code ≠ 200 ∧
        fetchURL env url w =
          (.error (utf8 "unexpected status code: " ++ utf8 (toString code)),
            w.emit (.httpGet url))) ∨
     (∃ body err, env.httpGet url = .response 200 body ∧ body.readAll = .error err ∧
        fetchURL env url w =
          (.error (utf8 "failed to read data: " ++ err),
            (w.emit (.httpGet url)).emit (.readAll url))) ∨
     (∃ body data err, env.httpGet url = .response 200 body ∧ body.readAll = .ok data ∧
        body.close = some err ∧
        fetchURL env url w =
          (.error (utf8 "failed to close response body: " ++ err),
            ((w.emit (.httpGet url)).emit (.readAll url)).emit (.bodyClose url))) ∨
     (∃ body data, env.httpGet url = .response 200 body ∧ body.readAll = .ok data ∧
        body.close = none ∧
        fetchURL env url w =
          (.ok data, ((w.emit (.httpGet url)).emit (.readAll url)).emit (.bodyClose url)))) := by
  unfold fetchURL
  cases hg : env.httpGet url with
  | failed err => simp
  | response code body =>
    obtain ⟨ra, cl⟩ := body
    by_cases hc : code = 200
    · subst hc
      cases ra with
      | error e => simp
      | ok d =>
        cases cl with
        | some e => simp
        | none => simp
    · simp [hc]

/-- C8: `fetchURL` returns the full response body and no error exactly when
the request succeeds at the transport level, the status is 200, the body is
read fully and closes without error; in every other case (transport failure,
a status other than 200, a read failure, a close failure after the body was
read) it returns an error and no data, and for a status other than 200 the
body is not read: the only call made is the GET. -/
theorem fetchURL_contract (env : Env) (url : GoString) (w : World) :
    (∀ data, (fetchURL env url w).1 = .ok data ↔
      ∃ body, env.httpGet url = .response 200 body ∧ body.readAll = .ok data ∧
        body.close = none) ∧
    ((¬ ∃ body data, env.httpGet url = .response 200 body ∧ body.readAll = .ok data ∧
        body.close = none) → ∃ err, (fetchURL env url w).1 = .error err) ∧
    (∀ err, env.httpGet url = .failed err →
      (fetchURL env url w).1 = .error (utf8 "error fetching: " ++ err)) ∧
    (∀ code body, env.httpGet url = .response code body → code ≠ 200 →
      (fetchURL env url w).1 =
        .error (utf8 "unexpected status code: " ++ utf8 (toString code)) ∧
      (fetchURL env url w).2.trace = w.trace ++ [.httpGet url] ∧
      Event.readAll url ∉ (fetchURL env url w).2.since w) ∧
    (∀ body err, env.httpGet url = .response 200 body → body.readAll = .error err →
      (fetchURL env url w).1 = .error (utf8 "failed to read data: " ++ err)) ∧
    (∀ body data err, env.httpGet url = .response 200 body → body.readAll = .ok data →
      body.close = some err →
      (fetchURL env url w).1 = .error (utf8 "failed to close response body: " ++ err) ∧
      (fetchURL env url w).2.trace =
        w.trace ++ [.httpGet url, .readAll url, .bodyClose url]) := by
  refine ⟨fun data => fetchURL_ok_iff env url w data, ?_, ?_, ?_, ?_, ?_⟩
  · intro hno
    cases hr : (fetchURL env url w).1 with
    | error err => exact ⟨err, rfl⟩
    | ok data =>
      obtain ⟨body, h1, h2, h3⟩ := (fetchURL_ok_iff env url w data).1 hr
      exact absurd ⟨body, data, h1, h2, h3⟩ hno
  · intro err h
    simp [fetchURL, h]
  · intro code body h hc
    simp [fetchURL, h, hc, World.since]
  · intro body err h hr
    simp [fetchURL, h, hr]
  · intro body data err h hr hcl
    simp [fetchURL, h, hr, hcl]

/-- C8, at concrete responses: a 404 is an error after the GET alone, a 200
whose body fails to close is an error although the body was read, and a clean
200 returns the body. -/
theorem fetchURL_contract_witness :
    (fetchURL { deadEnv with httpGet := fun _ => .response 404 ⟨.ok (utf8 "gone"), none⟩ }
        bulletinURL emptyWorld).1 = .error (utf8 "unexpected status code: 404") ∧
    (fetchURL { deadEnv with httpGet := fun _ => .response 404 ⟨.ok (utf8 "gone"), none⟩ }
        bulletinURL emptyWorld).2.trace = [.httpGet bulletinURL] ∧
    (fetchURL
        { deadEnv with httpGet := fun _ => .response 200 ⟨.ok (utf8 "v1"), some (utf8 "EOF")⟩ }
        bulletinURL emptyWorld).1 = .error (utf8 "failed to close response body: EOF") ∧
    (fetchURL (serving bulletinURL (utf8 "v1")) bulletinURL emptyWorld).1 = .ok (utf8 "v1") := by
  have h1 := (fetchURL_contract
    { deadEnv with httpGet := fun _ => .response 404 ⟨.ok (utf8 "gone"), none⟩ }
    bulletinURL emptyWorld).2.2.2.1 404 ⟨.ok (utf8 "gone"), none⟩ rfl (by decide)
  have h2 := (fetchURL_contract
    { deadEnv with httpGet := fun _ => .response 200 ⟨.ok (utf8 "v1"), some (utf8 "EOF")⟩ }
    bulletinURL emptyWorld).2.2.2.2.2 ⟨.ok (utf8 "v1"), some (utf8 "EOF")⟩ (utf8 "v1")
    (utf8 "EOF") rfl rfl rfl
  have h3 := ((fetchURL_contract (serving bulletinURL (utf8 "v1")) bulletinURL emptyWorld).1
    (utf8 "v1")).2 ⟨⟨.ok (utf8 "v1"), none⟩, by simp [serving], rfl, rfl⟩
  refine ⟨?_, ?_, ?_, h3⟩
  · rw [h1.1]; exact congrArg Except.error (by decide)
  · rw [h1.2.1]; rfl
  · rw [h2.1]; exact congrArg Except.error (by decide)

/-- C9: `sendNotification` issues exactly one form POST, to the literal
concatenation `gotify_url ++ "/message?token=" ++ gotify_token`, with exactly
the fields `title = "IERS Bulletin C Update"`, `message` = the given message
and `priority = "5"`; it touches no file; it returns success only on a
response with status 200, and an error for every other status. -/
theorem sendNotification_contract (env : Env) (cfg : config) (message : GoString) (w : World) :
    (∃ rest, (sendNotification env cfg message w).2.trace =
        w.trace ++ Event.httpPostForm (specEndpoint cfg) (specForm message) :: rest ∧
        ∀ e ∈ rest, e = Event.bodyClose (specEndpoint cfg)) ∧
    ((sendNotification env cfg message w).2.since w).countP Event.isNotification = 1 ∧
    (sendNotification env cfg message w).2.files = w.files ∧
    ((sendNotification env cfg message w).1 = none ↔
      env.httpPostForm (specEndpoint cfg) (specForm message) = .response 200 none) ∧
    (∀ code close,
      env.httpPostForm (specEndpoint cfg) (specForm message) = .response code close →
      code ≠ 200 →
      (sendNotification env cfg message w).1 =
        some (utf8 "unexpected status code from Gotify: " ++ utf8 (toString code))) := by
  unfold sendNotification specEndpoint specForm
  dsimp only
  split
  · rename_i err hp
    simp only [List.append_assoc] at hp
    simp [World.since, Event.isNotification, hp]
  · rename_i code close hp
    simp only [List.append_assoc] at hp
    by_cases hc : code = 200
    · subst hc
      cases close with
      | some e => simp [World.since, Event.isNotification, hp]
      | none => simp [World.since, Event.isNotification, hp]
    · simp [hc, World.since, Event.isNotification, hp]

/-- C9, in the scenario of the specification: the POST goes to
`http://x/message?token=t`, and a gateway answering 500 makes the send fail. -/
theorem sendNotification_contract_witness :
    specEndpoint scenarioConfig = utf8 "http://x/message?token=t" ∧
    (sendNotification { deadEnv with httpPostForm := fun _ _ => .response 500 none }
        scenarioConfig (utf8 "hello") emptyWorld).1 =
      some (utf8 "unexpected status code from Gotify: 500") ∧
    (sendNotification { deadEnv with httpPostForm := fun _ _ => .response 200 none }
        scenarioConfig (utf8 "hello") emptyWorld).1 = none := by
  refine ⟨by decide, ?_, ?_⟩
  · rw [(sendNotification_contract { deadEnv with httpPostForm := fun _ _ => .response 500 none }
      scenarioConfig (utf8 "hello") emptyWorld).2.2.2.2 500 none rfl (by decide)]
    exact congrArg some (by decide)
  · exact (sendNotification_contract
      { deadEnv with httpPostForm := fun _ _ => .response 200 none }
      scenarioConfig (utf8 "hello") emptyWorld).2.2.2.1.2 rfl

/-- Reading a file records the call and changes nothing else; it succeeds
exactly when no fault is injected and the file exists. -/
theorem osReadFile_eq (env : Env) (name : GoString) (w : World) :
    osReadFile env name w = ((osReadFile env name w).1, w.emit (.readFile name)) := by
  unfold osReadFile
  cases env.readFault name <;> cases w.files name <;> rfl

theorem osReadFile_ok_iff (env : Env) (name : GoString) (w : World) (data : List UInt8) :
    (osReadFile env name w).1 = .ok data ↔
      env.readFault name = none ∧ w.files name = some data := by
  unfold osReadFile
  cases env.readFault name <;> cases w.files name <;> simp

theorem utf8_bulletinC_ne_nil : utf8 "bulletinC.txt" ≠ [] := by decide

/-- C7: for every parsed configuration record, the validation in `getConfig`
terminates the process (status 1, after logging that URL and token are
required) if and only if `gotify_url` is empty or `gotify_token` is empty;
otherwise it returns a configuration with `gotify_url` and `gotify_token`
unchanged and `file_path` replaced by `bulletinC.txt` when empty; hence every
returned configuration has three non-empty fields. -/
theorem getConfig_validation (env : Env) (w : World) (path : GoString) (raw : List UInt8)
    (cfg : config)
    (hflag : flagParse env (utf8 "config.json") = .ok path)
    (hread : (osReadFile env path w).1 = .ok raw)
    (hparse : env.unmarshal raw = .ok cfg) :
    ((∃ code, (getConfig env w).1 = .error code) ↔
      (cfg.GotifyURL = [] ∨ cfg.GotifyToken = [])) ∧
    ((cfg.GotifyURL = [] ∨ cfg.GotifyToken = []) →
      getConfig env w =
        (.error 1, logFatal (utf8 "Gotify URL and token are required in config file")
          (w.emit (.readFile path)))) ∧
    (¬ (cfg.GotifyURL = [] ∨ cfg.GotifyToken = []) →
      (getConfig env w).1 =
        .ok { GotifyURL := cfg.GotifyURL, GotifyToken := cfg.GotifyToken,
              FilePath := if cfg.FilePath = [] then utf8 "bulletinC.txt" else cfg.FilePath }) ∧
    (∀ c, (getConfig env w).1 = .ok c →
      c.GotifyURL ≠ [] ∧ c.GotifyToken ≠ [] ∧ c.FilePath ≠ []) := by
  have hr : osReadFile env path w = (.ok raw, w.emit (.readFile path)) := by
    rw [osReadFile_eq, hread]
  by_cases hv : cfg.GotifyURL = [] ∨ cfg.GotifyToken = []
  · have hg : getConfig env w =
        (.error 1, logFatal (utf8 "Gotify URL and token are required in config file")
          (w.emit (.readFile path))) := by
      simp only [getConfig, hflag, hr, hparse, if_pos hv]
    refine ⟨⟨fun _ => hv, fun _ => ⟨1, by rw [hg]⟩⟩, fun _ => hg, fun h => absurd hv h, ?_⟩
    intro c hc
    rw [hg] at hc
    cases hc
  · have hg : (getConfig env w).1 =
        .ok { GotifyURL := cfg.GotifyURL, GotifyToken := cfg.GotifyToken,
              FilePath := if cfg.FilePath = [] then utf8 "bulletinC.txt" else cfg.FilePath } := by
      simp only [getConfig, hflag, hr, hparse, if_neg hv]
      by_cases hf : cfg.FilePath = []
      · simp [hf]
      · simp [hf]
    refine ⟨⟨?_, fun h => absurd h hv⟩, fun h => absurd h hv, fun _ => hg, ?_⟩
    · rintro ⟨code, hcode⟩
      rw [hg] at hcode
      cases hcode
    · intro c hc
      rw [hg] at hc
      injection hc with hc
      subst hc
      push_neg at hv
      refine ⟨hv.1, hv.2, ?_⟩
      by_cases hf : cfg.FilePath = []
      · simp only [hf, if_true]; exact utf8_bulletinC_ne_nil
      · simp only [hf, if_false]; exact hf

/-- C7, at concrete records: a record without `file_path` comes back with the
default file name, and a record without `gotify_url` is fatal. -/
theorem getConfig_validation_witness :
    (getConfig deadEnv (configWorld noPathJSON)).1 =
      .ok ⟨utf8 "http://x", utf8 "t", utf8 "bulletinC.txt"⟩ ∧
    (∃ code, (getConfig deadEnv (configWorld noURLJSON)).1 = .error code) :=
  ⟨(getConfig_validation deadEnv (configWorld noPathJSON)
      (utf8 "config.json") noPathJSON ⟨utf8 "http://x", utf8 "t", []⟩ rfl rfl rfl).2.2.1
      (by decide),
   (getConfig_validation deadEnv (configWorld noURLJSON)
      (utf8 "config.json") noURLJSON ⟨[], utf8 "t", utf8 "b.txt"⟩ rfl rfl rfl).1.2
      (Or.inl rfl)⟩

/-! ## Frame lemmas: what each call depends on and what it leaves behind -/

theorem fetchURL_fst_indep (env : Env) (url : GoString) (w w' : World) :
    (fetchURL env url w).1 = (fetchURL env url w').1 := by
  unfold fetchURL
  cases env.httpGet url with
  | failed err => rfl
  | response code body =>
    obtain ⟨ra, cl⟩ := body
    by_cases hc : code = 200
    · subst hc
      cases ra with
      | error e => rfl
      | ok d => cases cl <;> rfl
    · simp [hc]

theorem fetchURL_eq_of_ok (env : Env) (url : GoString) (w : World) (data : List UInt8)
    (h : (fetchURL env url w).1 = .ok data) :
    fetchURL env url w =
      (.ok data, ⟨w.files, w.trace ++ [.httpGet url, .readAll url, .bodyClose url]⟩) := by
  rcases (fetchURL_cases env url w).2 with ⟨e, _, h'⟩ | ⟨c, b, _, _, h'⟩ | ⟨b, e, _, _, h'⟩ |
    ⟨b, d, e, _, _, _, h'⟩ | ⟨b, d, _, _, _, h'⟩
  all_goals rw [h'] at h ⊢
  all_goals first
    | (cases h; done)
    | (injection h with h; subst h; simp [World.emit])

theorem fetchURL_frame (env : Env) (url : GoString) (w : World) :
    (fetchURL env url w).2.files = w.files ∧
    ∃ evs, (fetchURL env url w).2.trace = w.trace ++ evs ∧
      ∀ e ∈ evs, e = .httpGet url ∨ e = .readAll url ∨ e = .bodyClose url := by
  refine ⟨(fetchURL_cases env url w).1, ?_⟩
  rcases (fetchURL_cases env url w).2 with ⟨e, _, h'⟩ | ⟨c, b, _, _, h'⟩ | ⟨b, e, _, _, h'⟩ |
    ⟨b, d, e, _, _, _, h'⟩ | ⟨b, d, _, _, _, h'⟩
  · exact ⟨[.httpGet url], by simp [h'], by simp⟩
  · exact ⟨[.httpGet url], by simp [h'], by simp⟩
  · exact ⟨[.httpGet url, .readAll url], by simp [h'], by simp⟩
  · exact ⟨[.httpGet url, .readAll url, .bodyClose url], by simp [h'], by simp⟩
  · exact ⟨[.httpGet url, .readAll url, .bodyClose url], by simp [h'], by simp⟩

theorem osReadFile_fst_congr (env : Env) (name : GoString) (w w' : World)
    (h : w'.files = w.files) : (osReadFile env name w').1 = (osReadFile env name w).1 := by
  unfold osReadFile
  rw [h]
  cases env.readFault name <;> cases w.files name <;> rfl

theorem osWriteFile_eq_of_ok (env : Env) (name : GoString) (data : List UInt8) (w : World)
    (h : env.writeFile name data = .ok) :
    osWriteFile env name data w = (none, (w.emit (.writeFile name data)).store name data) := by
  simp [osWriteFile, h]

theorem sendNotification_fst_indep (env : Env) (cfg : config) (m : GoString) (w w' : World) :
    (sendNotification env cfg m w).1 = (sendNotification env cfg m w').1 := by
  unfold sendNotification
  dsimp only
  split
  · rfl
  · rename_i code close _
    by_cases hc : code = 200
    · subst hc
      cases close <;> rfl
    · simp [hc]

theorem sendNotification_frame (env : Env) (cfg : config) (m : GoString) (w : World) :
    (sendNotification env cfg m w).2.files = w.files ∧
    ∃ evs, (sendNotification env cfg m w).2.trace =
        w.trace ++ Event.httpPostForm (specEndpoint cfg) (specForm m) :: evs ∧
      ∀ e ∈ evs, e = Event.bodyClose (specEndpoint cfg) := by
  unfold sendNotification specEndpoint specForm
  dsimp only
  split
  · exact ⟨rfl, [], by simp, by simp⟩
  · rename_i code close _
    by_cases hc : code = 200
    · subst hc
      cases close with
      | some e =>
        exact ⟨rfl, [.bodyClose (cfg.GotifyURL ++ utf8 "/message?token=" ++ cfg.GotifyToken)],
          by simp, by simp⟩
      | none =>
        exact ⟨rfl, [.bodyClose (cfg.GotifyURL ++ utf8 "/message?token=" ++ cfg.GotifyToken)],
          by simp, by simp⟩
    · exact ⟨by simp [hc], [], by simp [hc], by simp⟩

theorem sendNotification_eq_of_ok (env : Env) (cfg : config) (m : GoString) (w : World)
    (h : (sendNotification env cfg m w).1 = none) :
    sendNotification env cfg m w =
      (none, ⟨w.files, w.trace ++
        [.httpPostForm (specEndpoint cfg) (specForm m), .bodyClose (specEndpoint cfg)]⟩) := by
  revert h
  unfold sendNotification specEndpoint specForm
  dsimp only
  split
  · simp
  · rename_i code close _
    by_cases hc : code = 200
    · subst hc
      cases close with
      | some e => simp
      | none => simp [World.emit]
    · simp [hc]

/-- The message the code builds, piece by piece, is the message of the
specification. -/
theorem message_eq_specMessage (C P : GoString) :
    utf8 "============\nNew content:\n============\n" ++ (TrimSpace C ++ utf8 "\n") ++
        utf8 "\n============\nAPI content:\n============\n" ++ (P ++ utf8 "\n") ++
        (utf8 "\nGitHub source URL: " ++ gitHubSourceURL) = specMessage C P := by
  have h1 : utf8 "\n" ++ utf8 "\n============\nAPI content:\n============\n" =
      utf8 "\n\n============\nAPI content:\n============\n" := by decide
  have h2 : utf8 "\n" ++ (utf8 "\nGitHub source URL: " ++ gitHubSourceURL) =
      utf8 "\n\nGitHub source URL: https://github.com/nixigaj/leap/blob/pages/leap.json" := by
    decide
  simp only [specMessage, List.append_assoc]
  rw [← h1, ← h2]
  simp only [List.append_assoc]

theorem generateNotificationMessage_eq_of_ok (env : Env) (C P : List UInt8) (w : World)
    (h : (fetchURL env apiURL w).1 = .ok P) :
    generateNotificationMessage env C w =
      (.ok (specMessage C P),
        ⟨w.files, w.trace ++ [.httpGet apiURL, .readAll apiURL, .bodyClose apiURL]⟩) := by
  simp only [generateNotificationMessage, fetchURL_eq_of_ok env apiURL w P h,
    message_eq_specMessage]

/-! ## The seven ways one check can go -/

/-- Every run of `checkForUpdates` is one of seven: the bulletin fetch fails,
the snapshot read fails, the contents are equal, the API fetch fails, the
send fails, the write fails, or everything succeeds; each with its result and
the world it leaves. -/
theorem checkForUpdates_cases (env : Env) (cfg : config) (w : World) :
    (∃ err, (fetchURL env bulletinURL w).1 = .error err ∧
      checkForUpdates env cfg w =
        (some (utf8 "error fetching bulletin: " ++ err), (fetchURL env bulletinURL w).2)) ∨
    (∃ remote err, (fetchURL env bulletinURL w).1 = .ok remote ∧
      (osReadFile env cfg.FilePath w).1 = .error err ∧
      checkForUpdates env cfg w =
        (some (utf8 "error reading existing file: " ++ err),
          ⟨w.files, w.trace ++ [.httpGet bulletinURL, .readAll bulletinURL,
            .bodyClose bulletinURL, .readFile cfg.FilePath]⟩)) ∨
    (∃ remote, (fetchURL env bulletinURL w).1 = .ok remote ∧
      (osReadFile env cfg.FilePath w).1 = .ok remote ∧
      checkForUpdates env cfg w =
        (none, ⟨w.files, w.trace ++ [.httpGet bulletinURL, .readAll bulletinURL,
            .bodyClose bulletinURL, .readFile cfg.FilePath]⟩)) ∨
    (∃ remote stored err, (fetchURL env bulletinURL w).1 = .ok remote ∧
      (osReadFile env cfg.FilePath w).1 = .ok stored ∧ stored ≠ remote ∧
      (fetchURL env apiURL w).1 = .error err ∧
      checkForUpdates env cfg w =
        (some (utf8 "error generating notification message: " ++
            (utf8 "error fetching API: " ++ err)),
          (fetchURL env apiURL ⟨w.files, w.trace ++ [.httpGet bulletinURL,
            .readAll bulletinURL, .bodyClose bulletinURL, .readFile cfg.FilePath]⟩).2)) ∨
    (∃ remote stored payload err, (fetchURL env bulletinURL w).1 = .ok remote ∧
      (osReadFile env cfg.FilePath w).1 = .ok stored ∧ stored ≠ remote ∧
      (fetchURL env apiURL w).1 = .ok payload ∧
      (sendNotification env cfg (specMessage remote payload) w).1 = some err ∧
      checkForUpdates env cfg w =
        (some (utf8 "error sending notification: " ++ err),
          (sendNotification env cfg (specMessage remote payload)
            ⟨w.files, w.trace ++ [.httpGet bulletinURL, .readAll bulletinURL,
              .bodyClose bulletinURL, .readFile cfg.FilePath, .httpGet apiURL,
              .readAll apiURL, .bodyClose apiURL]⟩).2)) ∨
    (∃ remote stored payload err, (fetchURL env bulletinURL w).1 = .ok remote ∧
      (osReadFile env cfg.FilePath w).1 = .ok stored ∧ stored ≠ remote ∧
      (fetchURL env apiURL w).1 = .ok payload ∧
      (sendNotification env cfg (specMessage remote payload) w).1 = none ∧
      env.writeFile cfg.FilePath remote ≠ .ok ∧
      checkForUpdates env cfg w =
        (some (utf8 "error updating file: " ++ err),
          (osWriteFile env cfg.FilePath remote
            ⟨w.files, w.trace ++ [.httpGet bulletinURL, .readAll bulletinURL,
              .bodyClose bulletinURL, .readFile cfg.FilePath, .httpGet apiURL,
              .readAll apiURL, .bodyClose apiURL,
              .httpPostForm (specEndpoint cfg) (specForm (specMessage remote payload)),
              .bodyClose (specEndpoint cfg)]⟩).2)) ∨
    (∃ remote stored payload, (fetchURL env bulletinURL w).1 = .ok remote ∧
      (osReadFile env cfg.FilePath w).1 = .ok stored ∧ stored ≠ remote ∧
      (fetchURL env apiURL w).1 = .ok payload ∧
      (sendNotification env cfg (specMessage remote payload) w).1 = none ∧
      env.writeFile cfg.FilePath remote = .ok ∧
      checkForUpdates env cfg w =
        (none,
          ⟨fun n => if n = cfg.FilePath then some remote else w.files n,
            w.trace ++ [.httpGet bulletinURL, .readAll bulletinURL,
              .bodyClose bulletinURL, .readFile cfg.FilePath, .httpGet apiURL,
              .readAll apiURL, .bodyClose apiURL,
              .httpPostForm (specEndpoint cfg) (specForm (specMessage remote payload)),
              .bodyClose (specEndpoint cfg), .writeFile cfg.FilePath remote,
              .logPrint (utf8 "Bulletin updated and notification sent")]⟩)) := by
  cases hf : (fetchURL env bulletinURL w).1 with
  | error err =>
    left
    refine ⟨err, rfl, ?_⟩
    have : fetchURL env bulletinURL w = (.error err, (fetchURL env bulletinURL w).2) :=
      Prod.ext hf rfl
    unfold checkForUpdates
    rw [this]
  | ok remote =>
    right
    have hf' := fetchURL_eq_of_ok env bulletinURL w remote hf
    have hr0 := osReadFile_eq env cfg.FilePath
      ⟨w.files, w.trace ++ [.httpGet bulletinURL, .readAll bulletinURL, .bodyClose bulletinURL]⟩
    have hr1 := osReadFile_fst_congr env cfg.FilePath w
      ⟨w.files, w.trace ++ [.httpGet bulletinURL, .readAll bulletinURL, .bodyClose bulletinURL]⟩
      rfl
    rw [hr1] at hr0
    cases hr : (osReadFile env cfg.FilePath w).1 with
    | error err =>
      left
      refine ⟨remote, err, rfl, rfl, ?_⟩
      rw [hr] at hr0
      simp only [checkForUpdates, hf', hr0]
      simp [World.emit]
    | ok stored =>
      right
      rw [hr] at hr0
      by_cases hne : stored = remote
      · left
        subst hne
        refine ⟨stored, rfl, rfl, ?_⟩
        simp only [checkForUpdates, hf', hr0]
        simp [World.emit]
      · right
        have hw2 : (⟨w.files, w.trace ++ [.httpGet bulletinURL, .readAll bulletinURL,
            .bodyClose bulletinURL]⟩ : World).emit (.readFile cfg.FilePath) =
            ⟨w.files, w.trace ++ [.httpGet bulletinURL, .readAll bulletinURL,
              .bodyClose bulletinURL, .readFile cfg.FilePath]⟩ := by
          simp [World.emit]
        rw [hw2] at hr0
        cases ha : (fetchURL env apiURL w).1 with
        | error err =>
          left
          refine ⟨remote, stored, err, rfl, rfl, hne, rfl, ?_⟩
          have ha' := fetchURL_fst_indep env apiURL
            ⟨w.files, w.trace ++ [.httpGet bulletinURL, .readAll bulletinURL,
              .bodyClose bulletinURL, .readFile cfg.FilePath]⟩ w
          rw [ha] at ha'
          simp only [checkForUpdates, hf', hr0, hne, not_false_eq_true, if_true,
            generateNotificationMessage]
          rw [show fetchURL env apiURL ⟨w.files, w.trace ++ [.httpGet bulletinURL,
              .readAll bulletinURL, .bodyClose bulletinURL, .readFile cfg.FilePath]⟩ =
            (.error err, (fetchURL env apiURL ⟨w.files, w.trace ++ [.httpGet bulletinURL,
              .readAll bulletinURL, .bodyClose bulletinURL, .readFile cfg.FilePath]⟩).2)
            from Prod.ext ha' rfl]
        | ok payload =>
          right
          have ha' := fetchURL_fst_indep env apiURL
            ⟨w.files, w.trace ++ [.httpGet bulletinURL, .readAll bulletinURL,
              .bodyClose bulletinURL, .readFile cfg.FilePath]⟩ w
          rw [ha] at ha'
          have hg := generateNotificationMessage_eq_of_ok env remote payload _ ha'
          simp only [List.append_assoc, List.cons_append, List.nil_append] at hg
          have hs0 := sendNotification_fst_indep env cfg (specMessage remote payload)
            ⟨w.files, w.trace ++ [.httpGet bulletinURL, .readAll bulletinURL,
              .bodyClose bulletinURL, .readFile cfg.FilePath, .httpGet apiURL,
              .readAll apiURL, .bodyClose apiURL]⟩ w
          cases hs : (sendNotification env cfg (specMessage remote payload) w).1 with
          | some err =>
            left
            refine ⟨remote, stored, payload, err, rfl, rfl, hne, rfl, hs, ?_⟩
            rw [hs] at hs0
            simp only [checkForUpdates, hf', hr0, hne, not_false_eq_true, if_true, hg]
            rw [show sendNotification env cfg (specMessage remote payload)
                ⟨w.files, w.trace ++ [.httpGet bulletinURL, .readAll bulletinURL,
                  .bodyClose bulletinURL, .readFile cfg.FilePath, .httpGet apiURL,
                  .readAll apiURL, .bodyClose apiURL]⟩ =
              (some err, (sendNotification env cfg (specMessage remote payload)
                ⟨w.files, w.trace ++ [.httpGet bulletinURL, .readAll bulletinURL,
                  .bodyClose bulletinURL, .readFile cfg.FilePath, .httpGet apiURL,
                  .readAll apiURL, .bodyClose apiURL]⟩).2) from Prod.ext hs0 rfl]
          | none =>
            right
            rw [hs] at hs0
            have hs' := sendNotification_eq_of_ok env cfg (specMessage remote payload) _ hs0
            simp only [List.append_assoc, List.cons_append, List.nil_append] at hs'
            cases hwr : env.writeFile cfg.FilePath remote with
            | ok =>
              right
              refine ⟨remote, stored, payload, rfl, rfl, hne, rfl, hs, hwr, ?_⟩
              simp only [checkForUpdates, hf', hr0, hne, not_false_eq_true, if_true, hg, hs',
                osWriteFile_eq_of_ok env cfg.FilePath remote _ hwr]
              simp [World.emit, World.store, logPrintf]
            | openFailed err =>
              left
              refine ⟨remote, stored, payload, err, rfl, rfl, hne, rfl, hs, by simp [hwr], ?_⟩
              simp only [checkForUpdates, hf', hr0, hne, not_false_eq_true, if_true, hg, hs',
                osWriteFile, hwr]
            | writeFailed err written =>
              left
              refine ⟨remote, stored, payload, err, rfl, rfl, hne, rfl, hs, by simp [hwr], ?_⟩
              simp only [checkForUpdates, hf', hr0, hne, not_false_eq_true, if_true, hg, hs',
                osWriteFile, hwr]

/-! ## The update checker -/

/-- C1: when the bulletin fetch and the snapshot read succeed and the stored
bytes equal the remote bytes, `checkForUpdates` returns success, leaves
every file as it was, and makes exactly four calls (GET of the bulletin URL,
read and close of its body, read of the state file): no write, no
notification, no fetch of the API URL.  (The outcome of a call depends on the
outside world and on the files only, and nothing before the write changes a
file, so the outcomes are stated in the starting world `w`.) -/
theorem checkForUpdates_unchanged (env : Env) (cfg : config) (w : World)
    (stored remote : List UInt8)
    (hfetch : (fetchURL env bulletinURL w).1 = .ok remote)
    (hread : (osReadFile env cfg.FilePath w).1 = .ok stored)
    (heq : stored = remote) :
    (checkForUpdates env cfg w).1 = none ∧
    (checkForUpdates env cfg w).2.files = w.files ∧
    (checkForUpdates env cfg w).2.trace =
      w.trace ++ [.httpGet bulletinURL, .readAll bulletinURL, .bodyClose bulletinURL,
        .readFile cfg.FilePath] ∧
    ∀ e ∈ (checkForUpdates env cfg w).2.since w,
      e.isWrite = false ∧ e.isNotification = false ∧ e ≠ .httpGet apiURL := by
  subst heq
  have hne := bulletinURL_ne_apiURL
  rcases checkForUpdates_cases env cfg w with ⟨err, h1, _⟩ | ⟨r, err, _, h2, _⟩ |
    ⟨r, _, _, h⟩ | ⟨r, s, err, h1, h2, hn, _⟩ | ⟨r, s, p, err, h1, h2, hn, _⟩ |
    ⟨r, s, p, err, h1, h2, hn, _⟩ | ⟨r, s, p, h1, h2, hn, _⟩
  · rw [hfetch] at h1; cases h1
  · rw [hread] at h2; cases h2
  · rw [h]
    refine ⟨rfl, rfl, rfl, ?_⟩
    intro e he
    simp only [World.since, List.drop_left, List.mem_cons, List.mem_singleton,
      List.not_mem_nil, or_false] at he
    rcases he with rfl | rfl | rfl | rfl <;> simp [Event.isWrite, Event.isNotification, hne]
  all_goals
    rw [hfetch] at h1; rw [hread] at h2
    injection h1 with h1; injection h2 with h2
    exact absurd (h2.symm.trans h1) hn

/-- C1, in the scenario `b.txt = "v1"`, remote `"v1"`: success, and the state
file still holds `"v1"`. -/
theorem checkForUpdates_unchanged_witness :
    (checkForUpdates (scenarioEnv (utf8 "v1") (utf8 "{}") 200) scenarioConfig
        (snapshotWorld (utf8 "v1"))).1 = none ∧
    (checkForUpdates (scenarioEnv (utf8 "v1") (utf8 "{}") 200) scenarioConfig
        (snapshotWorld (utf8 "v1"))).2.files = (snapshotWorld (utf8 "v1")).files :=
  have h := checkForUpdates_unchanged (scenarioEnv (utf8 "v1") (utf8 "{}") 200) scenarioConfig
    (snapshotWorld (utf8 "v1")) (utf8 "v1") (utf8 "v1") rfl rfl rfl
  ⟨h.1, h.2.1⟩

/-- C2: when the stored bytes differ from the remote bytes and the API fetch,
the notification send and the file write all succeed, `checkForUpdates`
returns success after exactly these calls, in this order: the bulletin fetch,
the snapshot read, the API fetch, one POST whose message is the specified
text built from the remote bytes and the API payload, and only then one write
of the remote bytes to the state file (then the log line); on return the
state file holds exactly the remote bytes and no other file changed. -/
theorem checkForUpdates_changed (env : Env) (cfg : config) (w : World)
    (stored remote payload : List UInt8)
    (hfetch : (fetchURL env bulletinURL w).1 = .ok remote)
    (hread : (osReadFile env cfg.FilePath w).1 = .ok stored)
    (hne : stored ≠ remote)
    (hapi : (fetchURL env apiURL w).1 = .ok payload)
    (hsend : (sendNotification env cfg (specMessage remote payload) w).1 = none)
    (hwrite : env.writeFile cfg.FilePath remote = .ok) :
    (checkForUpdates env cfg w).1 = none ∧
    (checkForUpdates env cfg w).2.trace =
      w.trace ++ [.httpGet bulletinURL, .readAll bulletinURL, .bodyClose bulletinURL,
        .readFile cfg.FilePath,
        .httpGet apiURL, .readAll apiURL, .bodyClose apiURL,
        .httpPostForm (specEndpoint cfg) (specForm (specMessage remote payload)),
        .bodyClose (specEndpoint cfg),
        .writeFile cfg.FilePath remote,
        .logPrint (utf8 "Bulletin updated and notification sent")] ∧
    ((checkForUpdates env cfg w).2.since w).countP Event.isNotification = 1 ∧
    ((checkForUpdates env cfg w).2.since w).countP Event.isWrite = 1 ∧
    (checkForUpdates env cfg w).2.files cfg.FilePath = some remote ∧
    ∀ name, name ≠ cfg.FilePath → (checkForUpdates env cfg w).2.files name = w.files name := by
  rcases checkForUpdates_cases env cfg w with ⟨err, h1, _⟩ | ⟨r, err, _, h2, _⟩ |
    ⟨r, h1, h2, _⟩ | ⟨r, s, err, h1, _, _, h3, _⟩ | ⟨r, s, p, err, h1, _, _, h3, h4, _⟩ |
    ⟨r, s, p, err, h1, _, _, h3, _, h5, _⟩ | ⟨r, s, p, h1, _, _, h3, _, _, h⟩
  · rw [hfetch] at h1; cases h1
  · rw [hread] at h2; cases h2
  · rw [hfetch] at h1; rw [hread] at h2
    injection h1 with h1; injection h2 with h2
    exact absurd (h2.trans h1.symm) hne
  · rw [hfetch] at h1; injection h1 with h1; subst h1
    rw [hapi] at h3; cases h3
  · rw [hfetch] at h1; injection h1 with h1; subst h1
    rw [hapi] at h3; injection h3 with h3; subst h3
    rw [hsend] at h4; cases h4
  · rw [hfetch] at h1; injection h1 with h1; subst h1
    exact absurd hwrite h5
  · rw [hfetch] at h1; injection h1 with h1; subst h1
    rw [hapi] at h3; injection h3 with h3; subst h3
    rw [h]
    refine ⟨rfl, rfl, ?_, ?_, ?_, ?_⟩
    · simp [World.since, Event.isNotification, List.countP_cons]
    · simp [World.since, Event.isWrite, List.countP_cons]
    · simp
    · intro name hname
      simp [hname]

/-- C2, in the scenario of the specification: `b.txt` holds `"v1"`, the remote
returns `"v2"`, the API returns `{"status":"ok"}`; afterwards `b.txt` holds
`"v2"` and exactly one notification was sent. -/
theorem checkForUpdates_changed_witness :
    (checkForUpdates (scenarioEnv (utf8 "v2") statusOk 200) scenarioConfig
        (snapshotWorld (utf8 "v1"))).1 = none ∧
    (checkForUpdates (scenarioEnv (utf8 "v2") statusOk 200) scenarioConfig
        (snapshotWorld (utf8 "v1"))).2.files (utf8 "b.txt") = some (utf8 "v2") ∧
    ((checkForUpdates (scenarioEnv (utf8 "v2") statusOk 200)
        scenarioConfig (snapshotWorld (utf8 "v1"))).2.since
          (snapshotWorld (utf8 "v1"))).countP Event.isNotification = 1 :=
  have h := checkForUpdates_changed (scenarioEnv (utf8 "v2") statusOk 200)
    scenarioConfig (snapshotWorld (utf8 "v1")) (utf8 "v1") (utf8 "v2")
    statusOk rfl rfl (by decide) rfl rfl rfl
  ⟨h.1, h.2.2.2.2.1, h.2.2.1⟩

/-- C3: when a step before the file write fails, `checkForUpdates` returns an
error, every file (so the state file) is as it was, and no later step is
performed.  (1) The bulletin fetch fails: no snapshot read, no API fetch, no
notification, no write.  (2) The snapshot read fails: no API fetch, no
notification, no write.  (3) The API fetch fails: no notification, no write.
(4) The notification send fails, for instance on a non-200 answer of the
gateway: no write. -/
theorem checkForUpdates_failure (env : Env) (cfg : config) (w : World) :
    (∀ err, (fetchURL env bulletinURL w).1 = .error err →
      (checkForUpdates env cfg w).1 = some (utf8 "error fetching bulletin: " ++ err) ∧
      (checkForUpdates env cfg w).2.files = w.files ∧
      ∀ e ∈ (checkForUpdates env cfg w).2.since w,
        e.isNotification = false ∧ e.isWrite = false ∧ e ≠ .httpGet apiURL ∧
        e ≠ .readFile cfg.FilePath) ∧
    (∀ remote err, (fetchURL env bulletinURL w).1 = .ok remote →
      (osReadFile env cfg.FilePath w).1 = .error err →
      (checkForUpdates env cfg w).1 = some (utf8 "error reading existing file: " ++ err) ∧
      (checkForUpdates env cfg w).2.files = w.files ∧
      ∀ e ∈ (checkForUpdates env cfg w).2.since w,
        e.isNotification = false ∧ e.isWrite = false ∧ e ≠ .httpGet apiURL) ∧
    (∀ remote stored err, (fetchURL env bulletinURL w).1 = .ok remote →
      (osReadFile env cfg.FilePath w).1 = .ok stored → stored ≠ remote →
      (fetchURL env apiURL w).1 = .error err →
      (checkForUpdates env cfg w).1 =
        some (utf8 "error generating notification message: " ++
          (utf8 "error fetching API: " ++ err)) ∧
      (checkForUpdates env cfg w).2.files = w.files ∧
      ∀ e ∈ (checkForUpdates env cfg w).2.since w,
        e.isNotification = false ∧ e.isWrite = false) ∧
    (∀ remote stored payload err, (fetchURL env bulletinURL w).1 = .ok remote →
      (osReadFile env cfg.FilePath w).1 = .ok stored → stored ≠ remote →
      (fetchURL env apiURL w).1 = .ok payload →
      (sendNotification env cfg (specMessage remote payload) w).1 = some err →
      (checkForUpdates env cfg w).1 = some (utf8 "error sending notification: " ++ err) ∧
      (checkForUpdates env cfg w).2.files = w.files ∧
      ∀ e ∈ (checkForUpdates env cfg w).2.since w, e.isWrite = false) := by
  have hU := bulletinURL_ne_apiURL
  refine ⟨?_, ?_, ?_, ?_⟩
  · intro err0 hf
    rcases checkForUpdates_cases env cfg w with ⟨err, h1, h⟩ | ⟨r, err, h1, _⟩ |
      ⟨r, h1, _⟩ | ⟨r, s, err, h1, _⟩ | ⟨r, s, p, err, h1, _⟩ |
      ⟨r, s, p, err, h1, _⟩ | ⟨r, s, p, h1, _⟩
    · rw [hf] at h1; injection h1 with h1; subst h1
      obtain ⟨hfiles, evs, htr, hevs⟩ := fetchURL_frame env bulletinURL w
      rw [h]
      refine ⟨rfl, hfiles, ?_⟩
      intro e he
      rw [since_append _ _ evs htr] at he
      rcases hevs e he with rfl | rfl | rfl <;>
        simp [Event.isNotification, Event.isWrite, hU]
    all_goals (rw [hf] at h1; cases h1)
  · intro remote err0 hf hr
    rcases checkForUpdates_cases env cfg w with ⟨err, h1, _⟩ | ⟨r, err, _, h2, h⟩ |
      ⟨r, _, h2, _⟩ | ⟨r, s, err, _, h2, _⟩ | ⟨r, s, p, err, _, h2, _⟩ |
      ⟨r, s, p, err, _, h2, _⟩ | ⟨r, s, p, _, h2, _⟩
    · rw [hf] at h1; cases h1
    · rw [hr] at h2; injection h2 with h2; subst h2
      rw [h]
      refine ⟨rfl, rfl, ?_⟩
      intro e he
      simp only [World.since, List.drop_left, List.mem_cons, List.mem_singleton,
        List.not_mem_nil, or_false] at he
      rcases he with rfl | rfl | rfl | rfl <;>
        simp [Event.isWrite, Event.isNotification, hU]
    all_goals (rw [hr] at h2; cases h2)
  · intro remote stored err0 hf hr hne ha
    rcases checkForUpdates_cases env cfg w with ⟨err, h1, _⟩ | ⟨r, err, _, h2, _⟩ |
      ⟨r, h1, h2, _⟩ | ⟨r, s, err, _, _, _, h3, h⟩ | ⟨r, s, p, err, _, _, _, h3, _⟩ |
      ⟨r, s, p, err, _, _, _, h3, _⟩ | ⟨r, s, p, _, _, _, h3, _⟩
    · rw [hf] at h1; cases h1
    · rw [hr] at h2; cases h2
    · rw [hf] at h1; rw [hr] at h2
      injection h1 with h1; injection h2 with h2
      exact absurd (h2.trans h1.symm) hne
    · rw [ha] at h3; injection h3 with h3; subst h3
      obtain ⟨hfiles, evs, htr, hevs⟩ := fetchURL_frame env apiURL
        ⟨w.files, w.trace ++ [.httpGet bulletinURL, .readAll bulletinURL,
          .bodyClose bulletinURL, .readFile cfg.FilePath]⟩
      rw [h]
      refine ⟨rfl, hfiles, ?_⟩
      intro e he
      rw [since_append w _ ([.httpGet bulletinURL, .readAll bulletinURL,
          .bodyClose bulletinURL, .readFile cfg.FilePath] ++ evs)
        (by rw [htr]; simp)] at he
      simp only [List.mem_append, List.mem_cons, List.mem_singleton, List.not_mem_nil,
        or_false] at he
      rcases he with (rfl | rfl | rfl | rfl) | he
      · simp [Event.isWrite, Event.isNotification]
      · simp [Event.isWrite, Event.isNotification]
      · simp [Event.isWrite, Event.isNotification]
      · simp [Event.isWrite, Event.isNotification]
      · rcases hevs e he with rfl | rfl | rfl <;> simp [Event.isWrite, Event.isNotification]
    all_goals (rw [ha] at h3; cases h3)
  · intro remote stored payload err0 hf hr hne ha hs
    rcases checkForUpdates_cases env cfg w with ⟨err, h1, _⟩ | ⟨r, err, _, h2, _⟩ |
      ⟨r, h1, h2, _⟩ | ⟨r, s, err, _, _, _, h3, _⟩ | ⟨r, s, p, err, h1, _, _, h3, h4, h⟩ |
      ⟨r, s, p, err, h1, _, _, h3, h4, _⟩ | ⟨r, s, p, h1, _, _, h3, h4, _⟩
    · rw [hf] at h1; cases h1
    · rw [hr] at h2; cases h2
    · rw [hf] at h1; rw [hr] at h2
      injection h1 with h1; injection h2 with h2
      exact absurd (h2.trans h1.symm) hne
    · rw [ha] at h3; cases h3
    · rw [hf] at h1; injection h1 with h1; subst h1
      rw [ha] at h3; injection h3 with h3; subst h3
      rw [hs] at h4; injection h4 with h4; subst h4
      obtain ⟨hfiles, evs, htr, hevs⟩ := sendNotification_frame env cfg
        (specMessage remote payload)
        ⟨w.files, w.trace ++ [.httpGet bulletinURL, .readAll bulletinURL,
          .bodyClose bulletinURL, .readFile cfg.FilePath, .httpGet apiURL,
          .readAll apiURL, .bodyClose apiURL]⟩
      rw [h]
      refine ⟨rfl, hfiles, ?_⟩
      intro e he
      rw [since_append w _ ([.httpGet bulletinURL, .readAll bulletinURL,
          .bodyClose bulletinURL, .readFile cfg.FilePath, .httpGet apiURL,
          .readAll apiURL, .bodyClose apiURL] ++
          Event.httpPostForm (specEndpoint cfg) (specForm (specMessage remote payload)) :: evs)
        (by rw [htr]; simp)] at he
      simp only [List.mem_append, List.mem_cons, List.mem_singleton, List.not_mem_nil,
        or_false] at he
      rcases he with (rfl | rfl | rfl | rfl | rfl | rfl | rfl) | rfl | he
      all_goals first
        | (rw [hevs e he]; rfl)
        | simp [Event.isWrite]
    all_goals
      rw [hf] at h1; injection h1 with h1; subst h1
      rw [ha] at h3; injection h3 with h3; subst h3
      rw [hs] at h4; cases h4

/-- C3, at concrete failures: with `b.txt = "v1"`, remote `"v2"` and a gateway
answering 500, the check returns the send error and `b.txt` still holds
`"v1"`; with every request refused, the check returns the fetch error. -/
theorem checkForUpdates_failure_witness :
    ((checkForUpdates (scenarioEnv (utf8 "v2") (utf8 "{}") 500) scenarioConfig
        (snapshotWorld (utf8 "v1"))).1 =
      some (utf8 "error sending notification: " ++
        utf8 "unexpected status code from Gotify: 500") ∧
     (checkForUpdates (scenarioEnv (utf8 "v2") (utf8 "{}") 500) scenarioConfig
        (snapshotWorld (utf8 "v1"))).2.files = (snapshotWorld (utf8 "v1")).files) ∧
    (checkForUpdates deadEnv scenarioConfig (snapshotWorld (utf8 "v1"))).1 =
      some (utf8 "error fetching bulletin: " ++
        (utf8 "error fetching: " ++ utf8 "connection refused")) :=
  have h := (checkForUpdates_failure (scenarioEnv (utf8 "v2") (utf8 "{}") 500) scenarioConfig
    (snapshotWorld (utf8 "v1"))).2.2.2 (utf8 "v2") (utf8 "v1") (utf8 "{}")
    (utf8 "unexpected status code from Gotify: 500") rfl rfl (by decide) rfl rfl
  have h' := (checkForUpdates_failure deadEnv scenarioConfig (snapshotWorld (utf8 "v1"))).1
    (utf8 "error fetching: " ++ utf8 "connection refused") rfl
  ⟨⟨h.1, h.2.1⟩, h'.1⟩

/-! ## The bootstrap -/

theorem osStat_eq (env : Env) (name : GoString) (w : World) :
    osStat env name w = ((osStat env name w).1, w.emit (.stat name)) := by
  unfold osStat
  cases env.statFault name <;> cases w.files name <;> rfl

/-- C5: when `initialCheck` finds that the state file does not exist and the
bulletin fetch and the write succeed, it returns success after exactly these
calls: the stat, one GET (of the bulletin URL) with the read and close of its
body, and one write of the fetched bytes `R` to the state file.  No
notification is sent, the API URL is not fetched, and afterwards the state
file holds exactly `R` while every other file is as it was. -/
theorem initialCheck_bootstrap (env : Env) (cfg : config) (w : World) (R : List UInt8)
    (hstat : (osStat env cfg.FilePath w).1 = .notExist)
    (hfetch : (fetchURL env bulletinURL w).1 = .ok R)
    (hwrite : env.writeFile cfg.FilePath R = .ok) :
    (initialCheck env cfg w).1 = none ∧
    (initialCheck env cfg w).2.trace =
      w.trace ++ [.stat cfg.FilePath, .httpGet bulletinURL, .readAll bulletinURL,
        .bodyClose bulletinURL, .writeFile cfg.FilePath R] ∧
    ((initialCheck env cfg w).2.since w).countP Event.isFetch = 1 ∧
    ((initialCheck env cfg w).2.since w).countP Event.isWrite = 1 ∧
    (∀ e ∈ (initialCheck env cfg w).2.since w,
      e.isNotification = false ∧ e ≠ .httpGet apiURL) ∧
    (initialCheck env cfg w).2.files cfg.FilePath = some R ∧
    ∀ name, name ≠ cfg.FilePath → (initialCheck env cfg w).2.files name = w.files name := by
  have hU := bulletinURL_ne_apiURL
  have hs := osStat_eq env cfg.FilePath w
  rw [hstat] at hs
  have hf0 := fetchURL_fst_indep env bulletinURL (w.emit (.stat cfg.FilePath)) w
  rw [hfetch] at hf0
  have hf := fetchURL_eq_of_ok env bulletinURL _ R hf0
  have key : initialCheck env cfg w =
      (none, ⟨fun n => if n = cfg.FilePath then some R else w.files n,
        w.trace ++ [.stat cfg.FilePath, .httpGet bulletinURL, .readAll bulletinURL,
          .bodyClose bulletinURL, .writeFile cfg.FilePath R]⟩) := by
    simp only [initialCheck, hs, fetchAndSave, hf,
      osWriteFile_eq_of_ok env cfg.FilePath R _ hwrite]
    simp [World.emit, World.store]
  rw [key]
  refine ⟨rfl, rfl, ?_, ?_, ?_, ?_, ?_⟩
  · simp [World.since, Event.isFetch, List.countP_cons]
  · simp [World.since, Event.isWrite, List.countP_cons]
  · intro e he
    simp only [World.since, List.drop_left, List.mem_cons, List.mem_singleton,
      List.not_mem_nil, or_false] at he
    rcases he with rfl | rfl | rfl | rfl | rfl <;> simp [Event.isNotification, hU]
  · simp
  · intro name hname
    simp [hname]

/-- C5, in the scenario of the specification: no `b.txt`, the remote returns
`"LEAP SECOND DATA v1"`; afterwards `b.txt` holds exactly those bytes, after
one fetch and one write. -/
theorem initialCheck_bootstrap_witness :
    (initialCheck (scenarioEnv (utf8 "LEAP SECOND DATA v1") (utf8 "{}") 200) scenarioConfig
        emptyWorld).1 = none ∧
    (initialCheck (scenarioEnv (utf8 "LEAP SECOND DATA v1") (utf8 "{}") 200) scenarioConfig
        emptyWorld).2.files (utf8 "b.txt") = some (utf8 "LEAP SECOND DATA v1") ∧
    (initialCheck (scenarioEnv (utf8 "LEAP SECOND DATA v1") (utf8 "{}") 200) scenarioConfig
        emptyWorld).2.trace =
      [.stat (utf8 "b.txt"), .httpGet bulletinURL, .readAll bulletinURL,
        .bodyClose bulletinURL, .writeFile (utf8 "b.txt") (utf8 "LEAP SECOND DATA v1")] :=
  have h := initialCheck_bootstrap (scenarioEnv (utf8 "LEAP SECOND DATA v1") (utf8 "{}") 200)
    scenarioConfig emptyWorld (utf8 "LEAP SECOND DATA v1") rfl rfl rfl
  ⟨h.1, h.2.2.2.2.2.1, h.2.1⟩

/-! ## Two checks in a row -/

/-- C10: whenever `checkForUpdates` returns success, the state file
afterwards holds exactly the bulletin bytes `R` fetched in that run; and a
second run started in the world the first one left, with the remote still
returning `R`, sends no notification, performs no write and leaves every
file as it is (and it returns success when the snapshot can be read). -/
theorem checkForUpdates_idempotent (env env2 : Env) (cfg : config) (w : World)
    (hok : (checkForUpdates env cfg w).1 = none) :
    ∃ R, (fetchURL env bulletinURL w).1 = .ok R ∧
      (checkForUpdates env cfg w).2.files cfg.FilePath = some R ∧
      ((fetchURL env2 bulletinURL (checkForUpdates env cfg w).2).1 = .ok R →
        (checkForUpdates env2 cfg (checkForUpdates env cfg w).2).2.files =
          (checkForUpdates env cfg w).2.files ∧
        (∀ e ∈ (checkForUpdates env2 cfg (checkForUpdates env cfg w).2).2.since
            (checkForUpdates env cfg w).2,
          e.isNotification = false ∧ e.isWrite = false) ∧
        (env2.readFault cfg.FilePath = none →
          (checkForUpdates env2 cfg (checkForUpdates env cfg w).2).1 = none)) := by
  -- the state file holds the fetched bytes after a successful run
  have first : ∃ R, (fetchURL env bulletinURL w).1 = .ok R ∧
      (checkForUpdates env cfg w).2.files cfg.FilePath = some R := by
    rcases checkForUpdates_cases env cfg w with ⟨err, _, h⟩ | ⟨r, err, _, _, h⟩ |
      ⟨r, h1, h2, h⟩ | ⟨r, s, err, _, _, _, _, h⟩ | ⟨r, s, p, err, _, _, _, _, _, h⟩ |
      ⟨r, s, p, err, _, _, _, _, _, _, h⟩ | ⟨r, s, p, h1, _, _, _, _, _, h⟩
    · rw [h] at hok; cases hok
    · rw [h] at hok; cases hok
    · refine ⟨r, h1, ?_⟩
      rw [h]
      exact ((osReadFile_ok_iff env cfg.FilePath w r).1 h2).2
    · rw [h] at hok; cases hok
    · rw [h] at hok; cases hok
    · rw [h] at hok; cases hok
    · refine ⟨r, h1, ?_⟩
      rw [h]
      simp
  obtain ⟨R, hR, hfile⟩ := first
  refine ⟨R, hR, hfile, ?_⟩
  intro h2
  generalize checkForUpdates env cfg w = run1 at hfile h2 ⊢
  obtain ⟨res1, w1⟩ := run1
  simp only at hfile h2 ⊢
  have hU := bulletinURL_ne_apiURL
  cases hr : (osReadFile env2 cfg.FilePath w1).1 with
  | error err =>
    have h := (checkForUpdates_cases env2 cfg w1)
    rcases h with ⟨e, h1, _⟩ | ⟨r, e, _, _, h⟩ | ⟨r, _, h3, _⟩ | ⟨r, s, e, _, h3, _⟩ |
      ⟨r, s, p, e, _, h3, _⟩ | ⟨r, s, p, e, _, h3, _⟩ | ⟨r, s, p, _, h3, _⟩
    · rw [h2] at h1; cases h1
    · rw [h]
      refine ⟨rfl, ?_, ?_⟩
      · intro e he
        simp only [World.since, List.drop_left, List.mem_cons, List.mem_singleton,
          List.not_mem_nil, or_false] at he
        rcases he with rfl | rfl | rfl | rfl <;> simp [Event.isWrite, Event.isNotification]
      · intro hnf
        have := (osReadFile_ok_iff env2 cfg.FilePath w1 R).2 ⟨hnf, hfile⟩
        rw [hr] at this; cases this
    all_goals (rw [hr] at h3; cases h3)
  | ok stored =>
    have hst : stored = R := by
      have := ((osReadFile_ok_iff env2 cfg.FilePath w1 stored).1 hr).2
      rw [hfile] at this
      injection this with this
      exact this.symm
    subst hst
    have h := (checkForUpdates_cases env2 cfg w1)
    rcases h with ⟨e, h1, _⟩ | ⟨r, e, _, h3, _⟩ | ⟨r, _, _, h⟩ | ⟨r, s, e, h1, h3, hn, _⟩ |
      ⟨r, s, p, e, h1, h3, hn, _⟩ | ⟨r, s, p, e, h1, h3, hn, _⟩ | ⟨r, s, p, h1, h3, hn, _⟩
    · rw [h2] at h1; cases h1
    · rw [hr] at h3; cases h3
    · rw [h]
      refine ⟨rfl, ?_, fun _ => rfl⟩
      intro e he
      simp only [World.since, List.drop_left, List.mem_cons, List.mem_singleton,
        List.not_mem_nil, or_false] at he
      rcases he with rfl | rfl | rfl | rfl <;> simp [Event.isWrite, Event.isNotification]
    all_goals
      rw [h2] at h1; rw [hr] at h3
      injection h1 with h1; injection h3 with h3
      exact absurd (h3.symm.trans h1) hn

/-- C10, in the scenario `"v1"` to `"v2"`: after the successful first run the
state file holds `"v2"`, and a second run against the same remote succeeds
and leaves the files as they are. -/
theorem checkForUpdates_idempotent_witness :
    (checkForUpdates (scenarioEnv (utf8 "v2") (utf8 "{}") 200) scenarioConfig
        (snapshotWorld (utf8 "v1"))).2.files (utf8 "b.txt") = some (utf8 "v2") ∧
    (checkForUpdates (scenarioEnv (utf8 "v2") (utf8 "{}") 200) scenarioConfig
      (checkForUpdates (scenarioEnv (utf8 "v2") (utf8 "{}") 200) scenarioConfig
        (snapshotWorld (utf8 "v1"))).2).1 = none ∧
    (checkForUpdates (scenarioEnv (utf8 "v2") (utf8 "{}") 200) scenarioConfig
      (checkForUpdates (scenarioEnv (utf8 "v2") (utf8 "{}") 200) scenarioConfig
        (snapshotWorld (utf8 "v1"))).2).2.files =
      (checkForUpdates (scenarioEnv (utf8 "v2") (utf8 "{}") 200) scenarioConfig
        (snapshotWorld (utf8 "v1"))).2.files := by
  obtain ⟨R, h1, h2, h3⟩ := checkForUpdates_idempotent
    (scenarioEnv (utf8 "v2") (utf8 "{}") 200) (scenarioEnv (utf8 "v2") (utf8 "{}") 200)
    scenarioConfig (snapshotWorld (utf8 "v1")) rfl
  have hR : R = utf8 "v2" := by
    have h : (Except.ok R : Except GoError (List UInt8)) = Except.ok (utf8 "v2") :=
      h1.symm.trans rfl
    injection h
  subst hR
  have h4 := h3 rfl
  exact ⟨h2, h4.2.2 rfl, h4.1⟩

/-! ## The scheduler -/

/-- C6, as stated, fails on the code: with a valid configuration, no state
file and a bulletin fetch that is refused, the initial check returns a fetch
error and `main` logs it and exits with status 1 instead of entering the
polling loop, although the tick that would follow could be served. -/
theorem main_initialCheck_error_exits :
    (getConfig deadEnv (configWorld scenarioJSON)).1 = .ok scenarioConfig ∧
    (initialCheck deadEnv scenarioConfig (getConfig deadEnv (configWorld scenarioJSON)).2).1 =
      some (utf8 "error fetching bulletin: error fetching: connection refused") ∧
    (main deadEnv [scenarioEnv (utf8 "v1") (utf8 "{}") 200] (configWorld scenarioJSON)).1 =
      .exited 1 ∧
    (main deadEnv [scenarioEnv (utf8 "v1") (utf8 "{}") 200] (configWorld scenarioJSON)).1 ≠
      .polling ∧
    (main deadEnv [scenarioEnv (utf8 "v1") (utf8 "{}") 200] (configWorld scenarioJSON)).2.trace =
      [.readFile (utf8 "config.json"), .stat (utf8 "b.txt"), .httpGet bulletinURL,
        .logPrint (utf8 "error fetching bulletin: error fetching: connection refused"),
        .exit 1] := by
  refine ⟨rfl, congrArg some (by decide), rfl, by decide, by decide⟩

/-- C6, amended: the process exits exactly when `getConfig` is fatal or the
initial check run once at startup returns an error (which is logged, status
1).  Otherwise `main` is in the polling loop after any number of ticks,
whatever the checks of those ticks return; an error returned by the check of
a tick is logged and the loop goes on with the next tick. -/
theorem main_exits_only_at_startup (env : Env) (ticks : List Env) (w : World) :
    ((∃ code, (main env ticks w).1 = .exited code) ↔
      ((∃ code, (getConfig env w).1 = .error code) ∨
       ∃ cfg err, (getConfig env w).1 = .ok cfg ∧
        (initialCheck env cfg (getConfig env w).2).1 = some err)) ∧
    (∀ cfg err, (getConfig env w).1 = .ok cfg →
      (initialCheck env cfg (getConfig env w).2).1 = some err →
      main env ticks w = (.exited 1, logFatal err (initialCheck env cfg (getConfig env w).2).2)) ∧
    (∀ cfg, (getConfig env w).1 = .ok cfg →
      (initialCheck env cfg (getConfig env w).2).1 = none →
      main env ticks w =
        (.polling, pollingLoop cfg ticks
          (logPrintf (utf8 "Starting monitoring of " ++ bulletinURL)
            (initialCheck env cfg (getConfig env w).2).2))) ∧
    (∀ cfg tick rest w0 err, (checkForUpdates tick cfg w0).1 = some err →
      pollingLoop cfg (tick :: rest) w0 =
        pollingLoop cfg rest
          (logPrintf (utf8 "Error checking for updates: " ++ err)
            (checkForUpdates tick cfg w0).2)) := by
  have hloop : ∀ cfg tick rest w0 err, (checkForUpdates tick cfg w0).1 = some err →
      pollingLoop cfg (tick :: rest) w0 =
        pollingLoop cfg rest
          (logPrintf (utf8 "Error checking for updates: " ++ err)
            (checkForUpdates tick cfg w0).2) := by
    intro cfg tick rest w0 err h
    rw [pollingLoop]
    generalize checkForUpdates tick cfg w0 = run at h ⊢
    obtain ⟨res, w1⟩ := run
    simp only at h
    subst h
    rfl
  refine ⟨?_, ?_, ?_, hloop⟩
  · unfold main
    rcases hgc : getConfig env w with ⟨rc, w1⟩
    cases rc with
    | error code => simp
    | ok cfg =>
      rcases hic : initialCheck env cfg w1 with ⟨ri, w2⟩
      cases ri with
      | some err => simp [hic]
      | none => simp [hic]
  · intro cfg err hc hi
    unfold main
    rw [show getConfig env w = (.ok cfg, (getConfig env w).2) from Prod.ext hc rfl]
    simp only []
    rw [show initialCheck env cfg (getConfig env w).2 =
      (some err, (initialCheck env cfg (getConfig env w).2).2) from Prod.ext hi rfl]
  · intro cfg hc hi
    unfold main
    rw [show getConfig env w = (.ok cfg, (getConfig env w).2) from Prod.ext hc rfl]
    simp only []
    rw [show initialCheck env cfg (getConfig env w).2 =
      (none, (initialCheck env cfg (getConfig env w).2).2) from Prod.ext hi rfl]

/-- C6 amended, at concrete inputs: with the state file present and the
remote unchanged, `main` is still polling after a tick whose fetch was
refused, and that tick left the error in the log. -/
theorem main_exits_only_at_startup_witness :
    (main (scenarioEnv (utf8 "v1") (utf8 "{}") 200) [deadEnv]
        ((snapshotWorld (utf8 "v1")).store (utf8 "config.json") scenarioJSON)).1 = .polling ∧
    pollingLoop scenarioConfig [deadEnv] (snapshotWorld (utf8 "v1")) =
      logPrintf (utf8 "Error checking for updates: " ++
          (utf8 "error fetching bulletin: " ++ (utf8 "error fetching: " ++
            utf8 "connection refused")))
        (checkForUpdates deadEnv scenarioConfig (snapshotWorld (utf8 "v1"))).2 := by
  have h := main_exits_only_at_startup (scenarioEnv (utf8 "v1") (utf8 "{}") 200) [deadEnv]
    ((snapshotWorld (utf8 "v1")).store (utf8 "config.json") scenarioJSON)
  refine ⟨?_, ?_⟩
  · rw [h.2.2.1 scenarioConfig rfl rfl]
  · exact h.2.2.2 scenarioConfig deadEnv [] (snapshotWorld (utf8 "v1")) _ rfl

/-! ## Go's `strings.TrimSpace`

The decoder reads at most the bytes of one sequence; the two loops of
`TrimFunc` walk over complete white-space runes; `TrimSpace` therefore cuts
white space, and only white space, off both ends. -/

theorem first_spec (b : UInt8) :
    (first b = 0xF0 ∧ b.toNat < 0x80) ∨
    (first b = 0xF1 ∧ 0x80 ≤ b.toNat) ∨
    (first b < 0xF0 ∧ 0xC2 ≤ b.toNat ∧
      (first b &&& 7 = 2 ∨ first b &&& 7 = 3 ∨ first b &&& 7 = 4) ∧
      0x80 ≤ (acceptRanges (first b >>> 4)).1 ∧ (acceptRanges (first b >>> 4)).2 ≤ 0xBF) := by
  unfold first
  simp only []
  split_ifs
  · left; exact ⟨rfl, by assumption⟩
  · right; left; exact ⟨rfl, by omega⟩
  all_goals first
    | (right; right; exact ⟨by decide, by omega, by decide, by decide, by decide⟩)
    | (right; left; exact ⟨rfl, by omega⟩)

theorem decode_append (v x : GoString) (hv : v ≠ [])
    (h : first (v.getD 0 0) ≥ 0xF0 ∨ (first (v.getD 0 0) &&& 7) ≤ v.length) :
    DecodeRuneInString (v ++ x) = DecodeRuneInString v := by
  have hx := first_spec (v.getD 0 0)
  rcases v with _ | ⟨a, _ | ⟨b, _ | ⟨c, _ | ⟨d, rest⟩⟩⟩⟩
  · exact absurd rfl hv
  all_goals
    simp only [DecodeRuneInString, List.cons_append, List.nil_append, List.getD_cons_zero,
      List.getD_cons_succ, List.length_cons, List.length_nil, List.length_append] at h hx ⊢
    generalize first a = f at h hx ⊢
    generalize acceptRanges (f >>> 4) = acc at hx ⊢
    generalize f &&& 7 = sz at h hx ⊢
    rcases hx with ⟨hf, _⟩ | ⟨hf, _⟩ | ⟨hf, ha, hsz, hlo, hhi⟩
    · subst hf; simp
    · subst hf; simp
    · have hf' : ¬ f ≥ 240 := by omega
      have hsz' : sz ≤ 4 := by omega
      rcases hsz with rfl | rfl | rfl <;> first
        | omega
        | (simp [hf'] <;> (split_ifs <;> first | omega | rfl))

theorem isSpace_runeError : IsSpace RuneError = false := by decide

/-- The three kinds of result of decoding a non-empty string: an ASCII byte,
an invalid encoding (width 1), or a complete sequence of as many bytes as
its first byte announces. -/
theorem decode_cases (s : GoString) (hs : s ≠ []) :
    ((s.getD 0 0).toNat < 0x80 ∧ DecodeRuneInString s = ((s.getD 0 0).toNat, 1)) ∨
    (0x80 ≤ (s.getD 0 0).toNat ∧ DecodeRuneInString s = (RuneError, 1)) ∨
    (0xC2 ≤ (s.getD 0 0).toNat ∧ first (s.getD 0 0) < 0xF0 ∧
      2 ≤ (DecodeRuneInString s).2 ∧ first (s.getD 0 0) &&& 7 = (DecodeRuneInString s).2 ∧
      (DecodeRuneInString s).2 ≤ s.length) := by
  have hl : ¬ s.length < 1 := by
    cases s with
    | nil => exact absurd rfl hs
    | cons a t => simp
  have hx := first_spec (s.getD 0 0)
  generalize hd : DecodeRuneInString s = d
  unfold DecodeRuneInString at hd
  simp only [hl, if_false] at hd
  generalize first (s.getD 0 0) = x at hx hd ⊢
  generalize acceptRanges (x >>> 4) = acc at hx hd
  generalize x &&& 7 = sz at hx hd ⊢
  rcases hx with ⟨hf, hb⟩ | ⟨hf, hb⟩ | ⟨hf, hb, hsz, hlo, hhi⟩
  · subst hf
    left
    simp only [ge_iff_le, le_refl, if_true] at hd
    exact ⟨hb, hd.symm⟩
  · subst hf
    right; left
    simp only [ge_iff_le, Nat.reduceLeDiff, if_true] at hd
    exact ⟨hb, hd.symm⟩
  · right
    simp only [ge_iff_le, show ¬ 240 ≤ x by omega, if_false] at hd
    split_ifs at hd <;> subst hd <;>
      first
        | (left; exact ⟨by omega, rfl⟩)
        | (right; simp only []; omega)

theorem decode_size (s : GoString) (h : s ≠ []) :
    1 ≤ (DecodeRuneInString s).2 ∧ (DecodeRuneInString s).2 ≤ s.length := by
  have hl : 1 ≤ s.length := by
    cases s with
    | nil => exact absurd rfl h
    | cons a t => simp
  rcases decode_cases s h with ⟨_, h1⟩ | ⟨_, h1⟩ | ⟨_, _, h1, _, h2⟩
  · rw [h1]; exact ⟨le_refl 1, hl⟩
  · rw [h1]; exact ⟨le_refl 1, hl⟩
  · omega

/-- A white-space rune is never the result of an invalid encoding: it is an
ASCII byte or a complete multi-byte sequence; so the bytes of its encoding
alone decode to it, and its first byte is not a continuation byte. -/
theorem decode_space (s : GoString) (h : IsSpace (DecodeRuneInString s).1 = true) :
    s ≠ [] ∧
    (first (s.getD 0 0) ≥ 0xF0 ∨ first (s.getD 0 0) &&& 7 = (DecodeRuneInString s).2) ∧
    ((s.getD 0 0).toNat < 0x80 ∨ 0xBF < (s.getD 0 0).toNat) ∧
    1 ≤ (DecodeRuneInString s).2 ∧ (DecodeRuneInString s).2 ≤ s.length := by
  have hs : s ≠ [] := by
    rintro rfl
    simp [DecodeRuneInString, isSpace_runeError] at h
  refine ⟨hs, ?_, ?_, decode_size s hs⟩
  · rcases decode_cases s hs with ⟨hb, _⟩ | ⟨_, h1⟩ | ⟨_, _, _, h1, _⟩
    · left
      rcases first_spec (s.getD 0 0) with ⟨hf, _⟩ | ⟨_, hb'⟩ | ⟨_, hb', _⟩ <;> omega
    · rw [h1] at h; simp [isSpace_runeError] at h
    · right; exact h1
  · rcases decode_cases s hs with ⟨hb, _⟩ | ⟨_, h1⟩ | ⟨hb, _⟩
    · left; exact hb
    · rw [h1] at h; simp [isSpace_runeError] at h
    · right; omega

/-- The bytes of the first rune alone decode to that rune, when it is white
space. -/
theorem decode_take_space (s : GoString) (h : IsSpace (DecodeRuneInString s).1 = true) :
    DecodeRuneInString (s.take (DecodeRuneInString s).2) = DecodeRuneInString s := by
  obtain ⟨hs, hf, _, h1, h2⟩ := decode_space s h
  have hne : s.take (DecodeRuneInString s).2 ≠ [] := by
    intro h0
    have hlen := congrArg List.length h0
    rw [List.length_take, List.length_nil] at hlen
    omega
  have h0 : (s.take (DecodeRuneInString s).2).getD 0 0 = s.getD 0 0 := by
    rcases s with _ | ⟨a, t⟩
    · exact absurd rfl hs
    · generalize (DecodeRuneInString (a :: t)).2 = k at h1
      rcases k with _ | k
      · omega
      · simp
  have key := decode_append (s.take (DecodeRuneInString s).2) (s.drop (DecodeRuneInString s).2)
    hne (by
      rw [h0, List.length_take]
      rcases hf with hf | hf
      · left; exact hf
      · right; omega)
  rw [List.take_append_drop] at key
  exact key.symm

/-- After a byte, bytes that do not start with a continuation byte are not
part of its sequence: the byte decodes with width 1. -/
theorem decode_before_start (b : UInt8) (rest : GoString)
    (h : (rest.getD 0 0).toNat < 0x80 ∨ 0xBF < (rest.getD 0 0).toNat) :
    (DecodeRuneInString (b :: rest)).2 = 1 := by
  have hx := first_spec b
  generalize hd : DecodeRuneInString (b :: rest) = d
  unfold DecodeRuneInString at hd
  simp only [List.length_cons, List.getD_cons_zero, List.getD_cons_succ,
    show ¬ rest.length + 1 < 1 by omega, if_false] at hd
  generalize first b = x at hx hd
  generalize acceptRanges (x >>> 4) = acc at hx hd
  generalize x &&& 7 = sz at hx hd
  split_ifs at hd <;> subst hd <;> simp only [] <;> omega

/-- A byte below `RuneSelf` decodes to itself. -/
theorem decode_ascii (b : UInt8) (t : GoString) (hb : b.toNat < 0x80) :
    DecodeRuneInString (b :: t) = (b.toNat, 1) := by
  rcases decode_cases (b :: t) (by simp) with ⟨_, h⟩ | ⟨h, _⟩ | ⟨h, _⟩
  · simpa using h
  · simp only [List.getD_cons_zero] at h; omega
  · simp only [List.getD_cons_zero] at h; omega

theorem SpaceRunes.append {a b : GoString} (ha : SpaceRunes a) (hb : SpaceRunes b) :
    SpaceRunes (a ++ b) := by
  induction ha with
  | nil => simpa using hb
  | cons t s h1 h2 _ ih =>
    rw [List.append_assoc]
    exact SpaceRunes.cons t (s ++ b) h1 h2 ih

theorem SpaceRunes.single (t : GoString) (h1 : (DecodeRuneInString t).2 = t.length)
    (h2 : IsSpace (DecodeRuneInString t).1 = true) : SpaceRunes t := by
  have := SpaceRunes.cons t [] h1 h2 SpaceRunes.nil
  simpa using this

/-- White space does not start with a continuation byte. -/
theorem SpaceRunes.head {r : GoString} (h : SpaceRunes r) :
    (r.getD 0 0).toNat < 0x80 ∨ 0xBF < (r.getD 0 0).toNat := by
  cases h with
  | nil => left; simp
  | cons t s h1 h2 _ =>
    obtain ⟨ht, _, hb, _⟩ := decode_space t h2
    rcases t with _ | ⟨a, t⟩
    · exact absurd rfl ht
    · simpa using hb

theorem asciiSpace_eq_isSpace (c : UInt8) (h : c.toNat < 0x80) :
    asciiSpace c = IsSpace c.toNat := by
  unfold asciiSpace IsSpace
  rw [if_pos (by omega)]
  congr 1
  apply propext
  constructor
  · intro h'; omega
  · intro h'; omega

/-- One ASCII white-space byte is white space. -/
theorem SpaceRunes.ascii (c : UInt8) (s : GoString) (hc : c.toNat < 0x80)
    (hsp : asciiSpace c = true) (hs : SpaceRunes s) : SpaceRunes (c :: s) := by
  have hd := decode_ascii c [] hc
  have := SpaceRunes.cons [c] s (by rw [hd]; rfl)
    (by rw [hd]; rw [← asciiSpace_eq_isSpace c hc]; exact hsp) hs
  simpa using this

theorem backUp_bounds (s : GoString) (lim k : Nat) :
    (lim : Int) - 1 ≤ DecodeLastRuneInString.backUp s lim k ∧
      DecodeLastRuneInString.backUp s lim k < (lim : Int) + k := by
  induction k with
  | zero => simp [DecodeLastRuneInString.backUp]
  | succ k ih =>
    unfold DecodeLastRuneInString.backUp
    split_ifs
    · push_cast; omega
    · push_cast; omega

/-- The last rune of a non-empty string: its width is between 1 and the
length, and unless it is `RuneError` of width 1 the last `width` bytes of
the string decode to it. -/
theorem decodeLast_spec (s : GoString) (hs : s ≠ []) :
    1 ≤ (DecodeLastRuneInString s).2 ∧ (DecodeLastRuneInString s).2 ≤ s.length ∧
    (DecodeRuneInString (s.drop (s.length - (DecodeLastRuneInString s).2)) =
        DecodeLastRuneInString s ∨
      DecodeLastRuneInString s = (RuneError, 1)) := by
  have hl : 1 ≤ s.length := by
    cases s with
    | nil => exact absurd rfl hs
    | cons a t => simp
  generalize hd : DecodeLastRuneInString s = d
  unfold DecodeLastRuneInString at hd
  simp only [show ¬ s.length = 0 by omega, if_false] at hd
  by_cases hascii : (s.getD (s.length - 1) 0).toNat < RuneSelf
  · simp only [hascii, if_true] at hd
    subst hd
    refine ⟨le_refl 1, hl, Or.inl ?_⟩
    have hdrop : s.drop (s.length - 1) = [s.getD (s.length - 1) 0] := by
      rw [List.getD_eq_getElem _ _ (by omega : s.length - 1 < s.length)]
      rw [List.drop_eq_getElem_cons (by omega : s.length - 1 < s.length)]
      simp [show s.length - 1 + 1 = s.length by omega]
    simp only []
    rw [hdrop]
    exact decode_ascii _ [] hascii
  · simp only [hascii, if_false] at hd
    have hb := backUp_bounds s (s.length - 4) (s.length - 1 - (s.length - 4))
    generalize DecodeLastRuneInString.backUp s (s.length - 4)
      (s.length - 1 - (s.length - 4)) = bu at hb hd
    generalize hst : (if bu < 0 then 0 else bu.toNat) = start at hd
    have hstart : start < s.length := by
      rw [← hst]
      split_ifs
      · omega
      · omega
    rw [List.take_length] at hd
    have hne : s.drop start ≠ [] := by
      intro h0
      have hlen := congrArg List.length h0
      rw [List.length_drop, List.length_nil] at hlen
      omega
    have hsz := decode_size (s.drop start) hne
    rw [List.length_drop] at hsz
    generalize hdec : DecodeRuneInString (s.drop start) = dec at hd hsz
    obtain ⟨r, size⟩ := dec
    simp only at hd hsz
    split_ifs at hd with hmis
    · subst hd
      exact ⟨le_refl 1, hl, Or.inr rfl⟩
    · subst hd
      simp only []
      have : s.length - size = start := by omega
      refine ⟨hsz.1, by omega, Or.inl ?_⟩
      rw [this, hdec]

theorem drop_eq_drop_take_append (u : GoString) (p i : Nat) (h : p ≤ i) (hi : i ≤ u.length) :
    u.drop p = (u.take i).drop p ++ u.drop i := by
  have hle : p ≤ (u.take i).length := by rw [List.length_take]; omega
  have key : (u.take i ++ u.drop i).drop p = (u.take i).drop p ++ u.drop i :=
    List.drop_append_of_le_length hle
  rw [List.take_append_drop] at key
  exact key

theorem getD_drop_zero (u : GoString) (p : Nat) : (u.drop p).getD 0 0 = u.getD p 0 := by
  simp [List.getD_eq_getElem?_getD]

theorem take_ne_nil (u : GoString) (i : Nat) (h : 0 < i) (hi : i ≤ u.length) :
    u.take i ≠ [] := by
  intro h0
  have hl := congrArg List.length h0
  rw [List.length_take, List.length_nil] at hl
  omega

/-- The backward loop of `lastIndexFunc` over white space: it ends with `-1`
when the whole string is white space, and otherwise at the start of the last
rune that is not white space, everything behind that rune being white
space. -/
theorem lastIndexFunc_loop_spec (u : GoString) :
    ∀ fuel i, i ≤ fuel → i ≤ u.length → SpaceRunes (u.drop i) →
      (lastIndexFunc.loop u IsSpace false fuel i = -1 ∧ SpaceRunes u) ∨
      (∃ j, 1 ≤ j ∧ j ≤ u.length ∧ SpaceRunes (u.drop j) ∧
        IsSpace (DecodeLastRuneInString (u.take j)).1 = false ∧
        lastIndexFunc.loop u IsSpace false fuel i =
          ((j - (DecodeLastRuneInString (u.take j)).2 : Nat) : Int)) := by
  intro fuel
  induction fuel with
  | zero =>
    intro i hi _ hsp
    have : i = 0 := by omega
    subst this
    left
    exact ⟨rfl, by simpa using hsp⟩
  | succ fuel ih =>
    intro i hi hlen hsp
    by_cases hpos : i > 0
    · obtain ⟨hz1, hz2, hdec⟩ := decodeLast_spec (u.take i) (take_ne_nil u i hpos hlen)
      rw [List.length_take, Nat.min_eq_left hlen] at hz2 hdec
      by_cases hs : IsSpace (DecodeLastRuneInString (u.take i)).1 = true
      · -- a white-space rune: the loop goes on before it
        have hloop : lastIndexFunc.loop u IsSpace false (fuel + 1) i =
            lastIndexFunc.loop u IsSpace false fuel
              (i - (DecodeLastRuneInString (u.take i)).2) := by
          rw [lastIndexFunc.loop]
          simp [hpos, hs]
        have hdec' : DecodeRuneInString
            ((u.take i).drop (i - (DecodeLastRuneInString (u.take i)).2)) =
            DecodeLastRuneInString (u.take i) := by
          rcases hdec with h | h
          · exact h
          · rw [h] at hs
            simp [isSpace_runeError] at hs
        have hpiece : SpaceRunes (u.drop (i - (DecodeLastRuneInString (u.take i)).2)) := by
          rw [drop_eq_drop_take_append u _ i (by omega) hlen]
          refine SpaceRunes.cons _ _ ?_ ?_ hsp
          · rw [hdec', List.length_drop, List.length_take]
            omega
          · rw [hdec']; exact hs
        rw [hloop]
        exact ih (i - (DecodeLastRuneInString (u.take i)).2) (by omega) (by omega) hpiece
      · -- the last rune that is not white space
        have hs' : IsSpace (DecodeLastRuneInString (u.take i)).1 = false := by
          simpa using hs
        have hloop : lastIndexFunc.loop u IsSpace false (fuel + 1) i =
            ((i - (DecodeLastRuneInString (u.take i)).2 : Nat) : Int) := by
          rw [lastIndexFunc.loop]
          simp [hpos, hs']
        right
        exact ⟨i, hpos, hlen, hsp, hs', hloop⟩
    · have : i = 0 := by omega
      subst this
      left
      exact ⟨by simp [lastIndexFunc.loop], by simpa using hsp⟩

/-- `TrimRightFunc` with `IsSpace` cuts the string after its last rune that
is not white space: what is cut off is white space, and what is left is empty
or ends in a rune that is not white space. -/
theorem TrimRightFunc_spec (u : GoString) :
    ∃ j, j ≤ u.length ∧ TrimRightFunc u IsSpace = u.take j ∧ SpaceRunes (u.drop j) ∧
      (j = 0 ∨ IsSpace (DecodeLastRuneInString (u.take j)).1 = false) := by
  rcases lastIndexFunc_loop_spec u u.length u.length (le_refl _) (le_refl _)
      (by simpa using SpaceRunes.nil) with ⟨h, hsp⟩ | ⟨j, hj1, hj2, hsp, hns, h⟩
  · refine ⟨0, by omega, ?_, by simpa using hsp, Or.inl rfl⟩
    unfold TrimRightFunc lastIndexFunc
    rw [h]
    simp
  · refine ⟨j, hj2, ?_, hsp, Or.inr hns⟩
    obtain ⟨hz1, hz2, hdec⟩ := decodeLast_spec (u.take j) (take_ne_nil u j hj1 hj2)
    rw [List.length_take, Nat.min_eq_left hj2] at hz2 hdec
    generalize hz : (DecodeLastRuneInString (u.take j)).2 = z at h hz1 hz2 hdec
    -- the index reached by the adjustment of `TrimRightFunc` is `j`
    have hp : u.drop (j - z) = (u.take j).drop (j - z) ++ u.drop j :=
      drop_eq_drop_take_append u _ j (by omega) hj2
    have hpl : ((u.take j).drop (j - z)).length = z := by
      rw [List.length_drop, List.length_take]
      omega
    have hsize : (DecodeRuneInString ((u.take j).drop (j - z))).2 = z ∨ z = 1 := by
      rcases hdec with hd | hd
      · left; rw [hd, hz]
      · right; rw [hd] at hz; exact hz.symm
    generalize (u.take j).drop (j - z) = piece at hp hpl hsize
    have key : (DecodeRuneInString (u.drop (j - z))).2 = z ∧
        ((u.getD (j - z) 0).toNat < RuneSelf → z = 1) := by
      rw [← getD_drop_zero u (j - z), hp]
      rcases piece with _ | ⟨b, ptail⟩
      · simp only [List.length_nil] at hpl; omega
      · simp only [List.cons_append, List.getD_cons_zero]
        constructor
        · by_cases hz1' : z = 1
          · have : ptail = [] := by
              simp only [List.length_cons] at hpl
              exact List.length_eq_zero.mp (by omega)
            subst this
            rw [hz1']
            exact decode_before_start b (u.drop j) (SpaceRunes.head hsp)
          · have hsz : (DecodeRuneInString (b :: ptail)).2 = z := by
              rcases hsize with hsz | hsz
              · exact hsz
              · exact absurd hsz hz1'
            have happ := decode_append (b :: ptail) (u.drop j) (by simp) (by
              rcases decode_cases (b :: ptail) (by simp) with ⟨_, hd⟩ | ⟨_, hd⟩ |
                ⟨_, _, _, hd, hle⟩
              · rw [hd] at hsz; simp only at hsz; omega
              · rw [hd] at hsz; simp only at hsz; omega
              · right; rw [hd]; exact hle)
            rw [List.cons_append] at happ
            rw [happ, hsz]
        · intro hb
          rcases hsize with hsz | hsz
          · rw [decode_ascii b ptail hb] at hsz
            exact hsz.symm
          · exact hsz
    have key' : (if (((j - z : Nat) : Int) ≥ 0 ∧
          (u.getD ((j - z : Nat) : Int).toNat 0).toNat ≥ RuneSelf) then
          ((j - z : Nat) : Int) + ((DecodeRuneInString (u.drop ((j - z : Nat) : Int).toNat)).2 : Int)
        else ((j - z : Nat) : Int) + 1) = (j : Int) := by
      simp only [Int.toNat_ofNat, ge_iff_le, Int.ofNat_zero_le, true_and]
      split_ifs with hc
      · rw [key.1]; omega
      · rw [key.2 (by omega)]; omega
    unfold TrimRightFunc lastIndexFunc
    simp only []
    rw [h, key']
    simp

theorem drop_ne_nil (u : GoString) (i : Nat) (hi : i < u.length) : u.drop i ≠ [] := by
  intro h0
  have hl := congrArg List.length h0
  rw [List.length_drop, List.length_nil] at hl
  omega

/-- The forward loop of `indexFunc` over white space: it ends with `-1` when
the whole string is white space, and otherwise at the first rune that is not
white space, everything before that rune being white space. -/
theorem indexFunc_loop_spec (t : GoString) :
    ∀ fuel i, t.length - i ≤ fuel → i ≤ t.length → SpaceRunes (t.take i) →
      (indexFunc.loop t IsSpace false fuel i = -1 ∧ SpaceRunes t) ∨
      (∃ j, j < t.length ∧ SpaceRunes (t.take j) ∧
        IsSpace (DecodeRuneInString (t.drop j)).1 = false ∧
        indexFunc.loop t IsSpace false fuel i = (j : Int)) := by
  intro fuel
  induction fuel with
  | zero =>
    intro i hi hlen hsp
    have : i = t.length := by omega
    subst this
    left
    exact ⟨rfl, by simpa using hsp⟩
  | succ fuel ih =>
    intro i hi hlen hsp
    by_cases hlt : i < t.length
    · obtain ⟨hk1, hk2⟩ := decode_size (t.drop i) (drop_ne_nil t i hlt)
      rw [List.length_drop] at hk2
      by_cases hs : IsSpace (DecodeRuneInString (t.drop i)).1 = true
      · have hloop : indexFunc.loop t IsSpace false (fuel + 1) i =
            indexFunc.loop t IsSpace false fuel (i + (DecodeRuneInString (t.drop i)).2) := by
          rw [indexFunc.loop]
          simp [hlt, hs]
        have htake : t.take (i + (DecodeRuneInString (t.drop i)).2) =
            t.take i ++ (t.drop i).take (DecodeRuneInString (t.drop i)).2 := by
          rw [List.take_add]
        have hpiece : SpaceRunes (t.take (i + (DecodeRuneInString (t.drop i)).2)) := by
          rw [htake]
          refine SpaceRunes.append hsp (SpaceRunes.single _ ?_ ?_)
          · rw [decode_take_space _ hs, List.length_take, List.length_drop]
            omega
          · rw [decode_take_space _ hs]; exact hs
        rw [hloop]
        exact ih _ (by omega) (by omega) hpiece
      · have hs' : IsSpace (DecodeRuneInString (t.drop i)).1 = false := by
          simpa using hs
        right
        refine ⟨i, hlt, hsp, hs', ?_⟩
        rw [indexFunc.loop]
        simp [hlt, hs']
    · have : i = t.length := by omega
      subst this
      left
      exact ⟨by simp [indexFunc.loop], by simpa using hsp⟩

/-- `TrimLeftFunc` with `IsSpace` drops the white space at the front: what is
dropped is white space, and what is left is empty or starts with a rune that
is not white space. -/
theorem TrimLeftFunc_spec (t : GoString) :
    ∃ i, i ≤ t.length ∧ TrimLeftFunc t IsSpace = t.drop i ∧ SpaceRunes (t.take i) ∧
      (i = t.length ∨ IsSpace (DecodeRuneInString (t.drop i)).1 = false) := by
  rcases indexFunc_loop_spec t t.length 0 (by omega) (by omega)
      (by simpa using SpaceRunes.nil) with ⟨h, hsp⟩ | ⟨j, hj, hsp, hns, h⟩
  · refine ⟨t.length, le_refl _, ?_, by simpa using hsp, Or.inl rfl⟩
    unfold TrimLeftFunc indexFunc
    rw [h]
    simp
  · refine ⟨j, by omega, ?_, hsp, Or.inr hns⟩
    unfold TrimLeftFunc indexFunc
    rw [h]
    simp only []
    rw [if_neg (by omega)]
    simp

/-- Cutting bytes off the end of a string cannot turn its first rune into
white space. -/
theorem decode_take_not_space (u : GoString) (j : Nat)
    (h : IsSpace (DecodeRuneInString u).1 = false) :
    IsSpace (DecodeRuneInString (u.take j)).1 = false := by
  by_contra hc
  have hs : IsSpace (DecodeRuneInString (u.take j)).1 = true := by simpa using hc
  obtain ⟨hne, hf, _, _, hle⟩ := decode_space _ hs
  have := decode_append (u.take j) (u.drop j) hne (by
    rcases hf with hf | hf
    · left; exact hf
    · right; rw [hf]; exact hle)
  rw [List.take_append_drop] at this
  rw [this, hs] at h
  cases h

/-- `TrimFunc` with `IsSpace`: the string is white space, the result, white
space; and the result is empty or starts and ends with runes that are not
white space. -/
theorem TrimFunc_spec (t : GoString) :
    ∃ l r, t = l ++ TrimFunc t IsSpace ++ r ∧ SpaceRunes l ∧ SpaceRunes r ∧
      (TrimFunc t IsSpace ≠ [] →
        IsSpace (DecodeRuneInString (TrimFunc t IsSpace)).1 = false ∧
        IsSpace (DecodeLastRuneInString (TrimFunc t IsSpace)).1 = false) := by
  obtain ⟨i, _, hL, hl, hfirst⟩ := TrimLeftFunc_spec t
  obtain ⟨j, _, hR, hr, hlast⟩ := TrimRightFunc_spec (t.drop i)
  have hT : TrimFunc t IsSpace = (t.drop i).take j := by
    unfold TrimFunc
    rw [hL, hR]
  refine ⟨t.take i, (t.drop i).drop j, ?_, hl, hr, ?_⟩
  · rw [hT, List.append_assoc, List.take_append_drop, List.take_append_drop]
  · rw [hT]
    intro hne
    constructor
    · rcases hfirst with h | h
      · exfalso
        apply hne
        rw [h]
        simp
      · exact decode_take_not_space _ j h
    · rcases hlast with h | h
      · exfalso
        apply hne
        rw [h]
        simp
      · exact h

theorem decodeLast_ascii (s : GoString) (c : UInt8) (hc : c.toNat < 0x80) :
    DecodeLastRuneInString (s ++ [c]) = (c.toNat, 1) := by
  unfold DecodeLastRuneInString
  simp only [List.length_append, List.length_singleton, Nat.add_one_ne_zero, if_false,
    Nat.add_sub_cancel]
  rw [List.getD_append_right _ _ _ _ (le_refl _)]
  simp [RuneSelf, hc]

theorem take_succ_eq (t : GoString) (n : Nat) (h : n < t.length) :
    t.take (n + 1) = t.take n ++ [t.getD n 0] := by
  rw [List.take_succ, List.getD_eq_getElem _ _ h]
  simp [List.getElem?_eq_getElem h]

theorem drop_eq_cons (t : GoString) (n : Nat) (h : n < t.length) :
    t.drop n = t.getD n 0 :: t.drop (n + 1) := by
  rw [List.getD_eq_getElem _ _ h]
  exact List.drop_eq_getElem_cons h

/-- The second loop of `TrimSpace`: it cuts white space off the end. -/
theorem stopLoop_spec (t : GoString) :
    ∀ n, n ≤ t.length → SpaceRunes (t.drop n) →
      ∃ m, m ≤ t.length ∧ TrimSpace.stopLoop t n = t.take m ∧ SpaceRunes (t.drop m) ∧
        (m = 0 ∨ IsSpace (DecodeLastRuneInString (t.take m)).1 = false) := by
  intro n
  induction n with
  | zero =>
    intro _ hsp
    exact ⟨0, by omega, rfl, hsp, Or.inl rfl⟩
  | succ n ih =>
    intro hn hsp
    unfold TrimSpace.stopLoop
    simp only []
    by_cases hc : (t.getD n 0).toNat ≥ RuneSelf
    · rw [if_pos hc]
      obtain ⟨j, hj, hR, hr, hlast⟩ := TrimRightFunc_spec (t.take (n + 1))
      rw [List.length_take, Nat.min_eq_left hn] at hj
      have htt : (t.take (n + 1)).take j = t.take j := by
        rw [List.take_take, Nat.min_eq_left hj]
      refine ⟨j, by omega, by rw [hR, htt], ?_, ?_⟩
      · rw [drop_eq_drop_take_append t j (n + 1) hj hn]
        exact SpaceRunes.append hr hsp
      · rw [htt] at hlast
        exact hlast
    · rw [if_neg hc]
      have hlt : (t.getD n 0).toNat < 0x80 := by
        unfold RuneSelf at hc
        omega
      by_cases hsp' : asciiSpace (t.getD n 0) = true
      · rw [if_pos hsp']
        refine ih (by omega) ?_
        rw [drop_eq_cons t n (by omega)]
        exact SpaceRunes.ascii _ _ hlt hsp' hsp
      · rw [if_neg hsp']
        refine ⟨n + 1, hn, rfl, hsp, Or.inr ?_⟩
        rw [take_succ_eq t n (by omega), decodeLast_ascii _ _ hlt]
        simp only []
        rw [← asciiSpace_eq_isSpace _ hlt]
        simpa using hsp'

/-- What `strings.TrimSpace` does: the string is white space, then the result,
then white space; and the result is empty or starts and ends with runes that
are not white space. -/
theorem TrimSpace_spec (s : GoString) :
    ∃ l r, s = l ++ TrimSpace s ++ r ∧ SpaceRunes l ∧ SpaceRunes r ∧
      (TrimSpace s ≠ [] →
        IsSpace (DecodeRuneInString (TrimSpace s)).1 = false ∧
        IsSpace (DecodeLastRuneInString (TrimSpace s)).1 = false) := by
  induction s with
  | nil =>
    exact ⟨[], [], by simp [TrimSpace, TrimSpace.stopLoop], SpaceRunes.nil, SpaceRunes.nil,
      by simp [TrimSpace, TrimSpace.stopLoop]⟩
  | cons c cs ih =>
    unfold TrimSpace
    by_cases hc : c.toNat ≥ RuneSelf
    · simp only [hc, if_true]
      exact TrimFunc_spec (c :: cs)
    · simp only [hc, if_false]
      have hlt : c.toNat < 0x80 := by
        unfold RuneSelf at hc
        omega
      by_cases hsp : asciiSpace c = true
      · simp only [hsp, if_true]
        obtain ⟨l, r, heq, hl, hr, hends⟩ := ih
        refine ⟨c :: l, r, ?_, SpaceRunes.ascii c l hlt hsp hl, hr, hends⟩
        rw [List.cons_append, List.cons_append, ← heq]
      · simp only [hsp]
        obtain ⟨m, hm, hS, hr, hlast⟩ := stopLoop_spec (c :: cs) (cs.length + 1)
          (by simp) (by simpa using SpaceRunes.nil)
        simp only [Bool.false_eq_true, if_false]
        rw [hS]
        refine ⟨[], (c :: cs).drop m, by simp, SpaceRunes.nil, hr, ?_⟩
        intro hne
        rcases hlast with h | h
        · exfalso; apply hne; rw [h]; simp
        · refine ⟨?_, h⟩
          rcases m with _ | m
          · exfalso; apply hne; simp
          · rw [List.take_succ_cons, decode_ascii c _ hlt]
            simp only []
            rw [← asciiSpace_eq_isSpace _ hlt]
            simpa using hsp

/-- The forward loop never runs out of fuel: every turn moves at least one
byte forward, so fuel beyond the number of bytes left changes nothing. -/
theorem indexFunc_loop_fuel (t : GoString) (f : Nat → Bool) (truth : Bool) :
    ∀ fuel i, t.length - i ≤ fuel →
      indexFunc.loop t f truth (fuel + 1) i = indexFunc.loop t f truth fuel i := by
  intro fuel
  induction fuel with
  | zero =>
    intro i hi
    have hlt : ¬ i < t.length := by omega
    simp [indexFunc.loop, hlt]
  | succ fuel ih =>
    intro i hi
    by_cases hlt : i < t.length
    · obtain ⟨hk1, _⟩ := decode_size (t.drop i) (drop_ne_nil t i hlt)
      rw [indexFunc.loop, indexFunc.loop.eq_def t f truth (fuel + 1)]
      simp only [hlt, if_true]
      rw [ih _ (by omega)]
    · rw [indexFunc.loop, indexFunc.loop.eq_def t f truth (fuel + 1)]
      simp only [hlt, if_false]

/-- The backward loop never runs out of fuel either. -/
theorem lastIndexFunc_loop_fuel (s : GoString) (f : Nat → Bool) (truth : Bool) :
    ∀ fuel i, i ≤ fuel → i ≤ s.length →
      lastIndexFunc.loop s f truth (fuel + 1) i = lastIndexFunc.loop s f truth fuel i := by
  intro fuel
  induction fuel with
  | zero =>
    intro i hi _
    have hpos : ¬ i > 0 := by omega
    simp [lastIndexFunc.loop, hpos]
  | succ fuel ih =>
    intro i hi hlen
    by_cases hpos : i > 0
    · obtain ⟨hz1, hz2, _⟩ := decodeLast_spec (s.take i) (take_ne_nil s i hpos hlen)
      rw [lastIndexFunc.loop, lastIndexFunc.loop.eq_def s f truth (fuel + 1)]
      simp only [hpos, if_true]
      rw [ih _ (by omega) (by omega)]
    · rw [lastIndexFunc.loop, lastIndexFunc.loop.eq_def s f truth (fuel + 1)]
      simp only [hpos, if_false]

/-! ## Backward and forward decoding agree on white space

`TrimRightFunc` finds the end of the result by decoding backwards.  That the
result has no white space left behind it, in the forward sense of
`SpaceRunes`, needs the backward decoder to recognise every complete
encoding of a white-space rune at the end of a string. -/

set_option maxRecDepth 100000 in
theorem runeStart_bits : ∀ n : Fin 256,
    (0xC2 ≤ n.val → (n.val &&& 0xC0 != 0x80) = true) ∧
    (0x80 ≤ n.val → n.val ≤ 0xBF → (n.val &&& 0xC0 != 0x80) = false) := by
  decide

/-- A first byte of a multi-byte sequence is a rune start. -/
theorem runeStart_lead (b : UInt8) (h : 0xC2 ≤ b.toNat) : RuneStart b = true :=
  (runeStart_bits ⟨b.toNat, b.val.isLt⟩).1 h

/-- A continuation byte is not a rune start. -/
theorem runeStart_cont (b : UInt8) (h1 : 0x80 ≤ b.toNat) (h2 : b.toNat ≤ 0xBF) :
    RuneStart b = false :=
  (runeStart_bits ⟨b.toNat, b.val.isLt⟩).2 h1 h2

/-- The backward scan stops at the nearest rune start. -/
theorem backUp_found (s : GoString) (lim : Nat) :
    ∀ k j, j < k → RuneStart (s.getD (lim + j) 0) = true →
      (∀ i, j < i → i < k → RuneStart (s.getD (lim + i) 0) = false) →
      DecodeLastRuneInString.backUp s lim k = ((lim + j : Nat) : Int) := by
  intro k
  induction k with
  | zero => intro j hj; omega
  | succ k ih =>
    intro j hj hstart hcont
    unfold DecodeLastRuneInString.backUp
    by_cases hjk : j = k
    · subst hjk
      rw [if_pos hstart]
    · rw [if_neg (by rw [hcont k (by omega) (by omega)]; simp)]
      exact ih j (by omega) hstart (fun i h1 h2 => hcont i h1 (by omega))

/-- In a complete sequence of two to four bytes every byte after the first is
a continuation byte. -/
theorem decode_multi_bytes (s : GoString) (h : 2 ≤ (DecodeRuneInString s).2) :
    ∀ i, 1 ≤ i → i < (DecodeRuneInString s).2 →
      0x80 ≤ (s.getD i 0).toNat ∧ (s.getD i 0).toNat ≤ 0xBF := by
  have hs : s ≠ [] := by
    rintro rfl
    simp [DecodeRuneInString] at h
  have hl : ¬ s.length < 1 := by
    cases s with
    | nil => exact absurd rfl hs
    | cons a t => simp
  have hx := first_spec (s.getD 0 0)
  revert h
  generalize hd : DecodeRuneInString s = d
  unfold DecodeRuneInString at hd
  simp only [hl, if_false] at hd
  generalize first (s.getD 0 0) = x at hx hd
  generalize acceptRanges (x >>> 4) = acc at hx hd
  generalize x &&& 7 = sz at hx hd
  rcases hx with ⟨hf, hb⟩ | ⟨hf, hb⟩ | ⟨hf, hb, hsz, hlo, hhi⟩
  · subst hf
    simp only [ge_iff_le, le_refl, if_true] at hd
    subst hd
    intro h; simp only at h; omega
  · subst hf
    simp only [ge_iff_le, Nat.reduceLeDiff, if_true] at hd
    subst hd
    intro h; simp only at h; omega
  · simp only [ge_iff_le, show ¬ 240 ≤ x by omega, if_false] at hd
    split_ifs at hd <;> subst hd <;> simp only [] <;> intro h i hi1 hi2 <;>
      first
        | omega
        | (have hi : i = 1 := by omega
           subst hi; omega)
        | (have hi : i = 1 ∨ i = 2 := by omega
           rcases hi with rfl | rfl <;> omega)
        | (have hi : i = 1 ∨ i = 2 ∨ i = 3 := by omega
           rcases hi with rfl | rfl | rfl <;> omega)

/-- Decoding backwards agrees with decoding forwards: a string that ends in
the complete encoding `t` of a white-space rune has that rune, with the width
of `t`, as its last rune. -/
theorem decodeLast_append_space (a t : GoString)
    (h1 : (DecodeRuneInString t).2 = t.length)
    (h2 : IsSpace (DecodeRuneInString t).1 = true) :
    DecodeLastRuneInString (a ++ t) = DecodeRuneInString t := by
  obtain ⟨hne, -, -, -, -⟩ := decode_space t h2
  rcases decode_cases t hne with ⟨hasc, hd⟩ | ⟨_, hd⟩ | ⟨hlead, _, h2le, hsz, _⟩
  · -- one ASCII byte
    rw [hd] at h1
    rcases t with _ | ⟨b, _ | ⟨c, rest⟩⟩
    · exact absurd rfl hne
    · simp only [List.getD_cons_zero] at hasc hd
      rw [hd]
      exact decodeLast_ascii a b hasc
    · simp at h1
  · rw [hd] at h2
    simp [isSpace_runeError] at h2
  · -- a sequence of two to four bytes
    have hk4 : (DecodeRuneInString t).2 ≤ 4 := by
      rcases first_spec (t.getD 0 0) with ⟨hf, _⟩ | ⟨hf, _⟩ | ⟨_, _, hs, _⟩ <;> omega
    have hbytes := decode_multi_bytes t h2le
    generalize hk : (DecodeRuneInString t).2 = k at h1 h2le hk4 hbytes
    have hget : ∀ i, i < k → (a ++ t).getD (a.length + i) 0 = t.getD i 0 := by
      intro i _
      rw [List.getD_append_right _ _ _ _ (by omega)]
      simp
    have hlast : ¬ ((a ++ t).getD ((a ++ t).length - 1) 0).toNat < RuneSelf := by
      have := hget (k - 1) (by omega)
      rw [show (a ++ t).length - 1 = a.length + (k - 1) by
        rw [List.length_append]; omega, this]
      have := (hbytes (k - 1) (by omega) (by omega)).1
      unfold RuneSelf
      omega
    have hback : DecodeLastRuneInString.backUp (a ++ t) ((a ++ t).length - 4)
        ((a ++ t).length - 1 - ((a ++ t).length - 4)) = ((a.length : Nat) : Int) := by
      have hlen : (a ++ t).length = a.length + k := by rw [List.length_append, h1]
      have key := backUp_found (a ++ t) ((a ++ t).length - 4)
        ((a ++ t).length - 1 - ((a ++ t).length - 4))
        (a.length - ((a ++ t).length - 4)) (by omega)
        (by
          rw [show (a ++ t).length - 4 + (a.length - ((a ++ t).length - 4)) = a.length + 0 by
            omega, hget 0 (by omega)]
          exact runeStart_lead _ hlead)
        (by
          intro i hi1 hi2
          rw [show (a ++ t).length - 4 + i =
            a.length + ((a ++ t).length - 4 + i - a.length) by omega, hget _ (by omega)]
          have := hbytes ((a ++ t).length - 4 + i - a.length) (by omega) (by omega)
          exact runeStart_cont _ this.1 this.2)
      rw [key]
      congr 1
      omega
    unfold DecodeLastRuneInString
    simp only [show ¬ (a ++ t).length = 0 by rw [List.length_append]; omega, if_false, hlast,
      hback, List.take_length]
    simp only [Int.natCast_nonneg, not_lt.mpr, if_false, Int.toNat_ofNat,
      List.drop_left]
    rw [if_neg (by rw [List.length_append, hk, h1]; simp)]

/-- Non-empty white space ends in the complete encoding of a white-space
rune. -/
theorem SpaceRunes.last {b : GoString} (h : SpaceRunes b) :
    b = [] ∨ ∃ b' t, b = b' ++ t ∧ (DecodeRuneInString t).2 = t.length ∧
      IsSpace (DecodeRuneInString t).1 = true := by
  induction h with
  | nil => left; rfl
  | cons t s h1 h2 _ ih =>
    right
    rcases ih with rfl | ⟨s', t', rfl, h1', h2'⟩
    · exact ⟨[], t, by simp, h1, h2⟩
    · exact ⟨t ++ s', t', by simp, h1', h2'⟩

/-- A string whose first rune is not white space has no white space in
front. -/
theorem no_space_prefix (T a b : GoString)
    (hT : IsSpace (DecodeRuneInString T).1 = false) (heq : T = a ++ b)
    (ha : SpaceRunes a) : a = [] := by
  cases ha with
  | nil => rfl
  | cons t s h1 h2 _ =>
    exfalso
    obtain ⟨hne, hf, _, _, _⟩ := decode_space t h2
    have := decode_append t (s ++ b) hne (by
      rcases hf with hf | hf
      · left; exact hf
      · right; rw [hf, h1])
    rw [heq, List.append_assoc, this, h2] at hT
    cases hT

/-- A string whose last rune is not white space has no white space
behind. -/
theorem no_space_suffix (T a b : GoString)
    (hT : IsSpace (DecodeLastRuneInString T).1 = false) (heq : T = a ++ b)
    (hb : SpaceRunes b) : b = [] := by
  rcases SpaceRunes.last hb with h | ⟨b', t, rfl, h1, h2⟩
  · exact h
  · exfalso
    rw [heq, ← List.append_assoc, decodeLast_append_space _ t h1 h2, h2] at hT
    cases hT

/-- The result of `strings.TrimSpace` has no white space left at either end:
no non-empty prefix and no non-empty suffix of it is white space. -/
theorem TrimSpace_no_space_ends (s : GoString) :
    (∀ a b, TrimSpace s = a ++ b → SpaceRunes a → a = []) ∧
    (∀ a b, TrimSpace s = a ++ b → SpaceRunes b → b = []) := by
  obtain ⟨_, _, _, _, _, hends⟩ := TrimSpace_spec s
  by_cases hne : TrimSpace s = []
  · rw [hne]
    constructor
    · intro a b h _
      exact (List.append_eq_nil.mp h.symm).1
    · intro a b h _
      exact (List.append_eq_nil.mp h.symm).2
  · obtain ⟨h1, h2⟩ := hends hne
    exact ⟨fun a b heq ha => no_space_prefix _ a b h1 heq ha,
      fun a b heq hb => no_space_suffix _ a b h2 heq hb⟩

/-! ## The notification message -/

/-- C4: when the API fetch succeeds with payload `P`, the message built for
new content `C` is exactly the literal
`"============\nNew content:\n============\n"`, then `trim(C)`, then
`"\n\n============\nAPI content:\n============\n"`, then `P` untrimmed, then
`"\n\nGitHub source URL: https://github.com/nixigaj/leap/blob/pages/leap.json"`;
it depends on nothing but `C` and `P`; and `trim` removes the leading and
trailing white space of `C`: `C` is white space, then `trim(C)`, then white
space; no non-empty prefix and no non-empty suffix of `trim(C)` is white
space; and `trim(C)` is empty or starts and ends with a rune that is not
white space, decoding forwards and backwards as Go does. -/
theorem generateNotificationMessage_format (env : Env) (C P : List UInt8) (w : World)
    (hapi : (fetchURL env apiURL w).1 = .ok P) :
    (generateNotificationMessage env C w).1 =
      .ok (utf8 "============\nNew content:\n============\n" ++ TrimSpace C ++
        utf8 "\n\n============\nAPI content:\n============\n" ++ P ++
        utf8 "\n\nGitHub source URL: https://github.com/nixigaj/leap/blob/pages/leap.json") ∧
    (∀ env' w', (fetchURL env' apiURL w').1 = .ok P →
      (generateNotificationMessage env' C w').1 = (generateNotificationMessage env C w).1) ∧
    (∃ l r, C = l ++ TrimSpace C ++ r ∧ SpaceRunes l ∧ SpaceRunes r) ∧
    (∀ a b, TrimSpace C = a ++ b → SpaceRunes a → a = []) ∧
    (∀ a b, TrimSpace C = a ++ b → SpaceRunes b → b = []) ∧
    (TrimSpace C ≠ [] →
      IsSpace (DecodeRuneInString (TrimSpace C)).1 = false ∧
      IsSpace (DecodeLastRuneInString (TrimSpace C)).1 = false) := by
  obtain ⟨l, r, heq, hl, hr, hends⟩ := TrimSpace_spec C
  obtain ⟨hpre, hsuf⟩ := TrimSpace_no_space_ends C
  refine ⟨?_, ?_, ⟨l, r, heq, hl, hr⟩, hpre, hsuf, hends⟩
  · rw [generateNotificationMessage_eq_of_ok env C P w hapi]
    rfl
  · intro env' w' h'
    rw [generateNotificationMessage_eq_of_ok env C P w hapi,
      generateNotificationMessage_eq_of_ok env' C P w' h']

/-- C4, in the scenario of the specification: new content `"v2"` (here with
white space around it, which is removed: an ideographic space U+3000 and a
blank in front, a no-break space U+00A0, a carriage return and a line feed
behind) and API payload `{"status":"ok"}` (here followed by a line feed,
which is kept) give a message that contains both. -/
theorem generateNotificationMessage_format_witness :
    (generateNotificationMessage (scenarioEnv (utf8 "v2") (statusOk ++ utf8 "\n") 200)
        (utf8 "\u3000 v2\u00a0\r\n") emptyWorld).1 =
      .ok (utf8 ("============\nNew content:\n============\nv2\n\n============\n" ++
        "API content:\n============\n\x7b\"status\":\"ok\"\x7d\n\n\n" ++
        "GitHub source URL: https://github.com/nixigaj/leap/blob/pages/leap.json")) :=
  (generateNotificationMessage_format (scenarioEnv (utf8 "v2") (statusOk ++ utf8 "\n") 200)
    (utf8 "\u3000 v2\u00a0\r\n") (statusOk ++ utf8 "\n") emptyWorld rfl).1.trans
    (congrArg Except.ok (by decide))

end Leap
